import Mathlib

/-!
Verification development for the Berserk chess engine's search core and
transposition table (search.c, transposition.c), following the repository's
natural-language specification.  The collaborator modules that are not part
of the verified core (move generation, board mechanics, static exchange
evaluation, the static evaluator's internals) are abstracted into an
environment record `Env`, exactly as the specification itself declares them
external interfaces.  General recursion of the search is rendered with an
explicit fuel parameter; every theorem below either needs no fuel bound or
holds for all fuel values.
-/

namespace Berserk

/-! ### Constants from search.c and types.h -/
def CHECKMATE : Int := 32767

def MATE_BOUND : Int := 30000

def FUTILITY_MARGIN : Int := 85

def SEE_PRUNE_CAPTURE_CUTOFF : Int := -70

def SEE_PRUNE_CUTOFF : Int := -20

def DELTA_CUTOFF : Int := 200

def MAX_SEARCH_PLY : Nat := 128

/-- Modelled from the spec: `MAX_DEPTH` is defined in search.h, which is not
among the provided sources.  The specification bounds all search plies by
`MAX_SEARCH_PLY = 128` (data model §3, concurrency §5), so the ply limit
constant used by search.c is taken to be that same bound. -/
def MAX_DEPTH : Nat := 128

/-- Modelled from the spec: `BUCKET_SIZE` lives in the missing
transposition.h; the specification fixes the reference bucket size `B = 2`,
as does the comment atop transposition.c. -/
def BUCKET_SIZE : Nat := 2

/-- Modelled from the spec: the bound kinds {EXACT, LOWER, UPPER} are a
2-bit tag in the missing transposition.h; the concrete tag values are an
implementation choice, so three distinct codes are fixed here. -/
def TT_EXACT : Nat := 1

def TT_LOWER : Nat := 2

def TT_UPPER : Nat := 4

def NULL_MOVE : Nat := 0

def WHITE : Nat := 0

def BLACK : Nat := 1

/-- Modelled from the spec: the `PAWN[side]` piece-code array is in the
missing board module; by the piece enumeration of types.h,
PAWN_WHITE = 0 and PAWN_BLACK = 1. -/
def PAWN (side : Nat) : Nat := side

/-- Modelled from the spec: the `QUEEN[side]` piece-code array is in the
missing board module; by the piece enumeration of types.h,
QUEEN_WHITE = 8 and QUEEN_BLACK = 9. -/
def QUEEN (side : Nat) : Nat := 8 + side

/-- Modelled from the spec: `PIECE_TYPE` maps the twelve colored piece codes
of types.h to the six piece types, pairing white/black codes. -/
def PIECE_TYPE (pc : Nat) : Nat := pc / 2

def INT32_MAX : Int := 2147483647

/-! ### Transposition table (transposition.c)

The packed 64-bit entry of the missing transposition.h is modelled as a
record: the spec demands only that the accessors are pure projections that
round-trip every field written by `put`.  A slot pairs a key with the packed
value; a zero key means empty, and the packed value `0` (the `NO_ENTRY`
sentinel) is `none`. -/
/-- Modelled from the spec: the packed TT entry
{score, static-eval, depth, bound tag, move} with exact round-tripping. -/
structure TTBody where
  score : Int
  flag : Nat
  depth : Int
  move : Nat
  eval : Int
deriving DecidableEq

/-- Modelled from the spec: `TTEntry` packs the five fields of an entry. -/
def TTEntry (score : Int) (flag : Nat) (depth : Int) (move : Nat) (eval : Int) : TTBody :=
  ⟨score, flag, depth, move, eval⟩

/-- A bucket slot: key paired with the packed value (none = `NO_ENTRY`). -/
abbrev Slot := Nat × Option TTBody

def TTDepth (v : Option TTBody) : Int := (v.map TTBody.depth).getD 0

def TTFlag (v : Option TTBody) : Nat := (v.map TTBody.flag).getD 0

def TTMove (v : Option TTBody) : Nat := (v.map TTBody.move).getD 0

def TTEval (v : Option TTBody) : Int := (v.map TTBody.eval).getD 0

def ttRaw (v : Option TTBody) : Int := (v.map TTBody.score).getD 0

/-- transposition.c `TTScore`: undo the mate-distance adjustment at read. -/
def TTScore (v : Option TTBody) (ply : Nat) : Int :=
  let score := ttRaw v
  if score > MATE_BOUND then score - ply
  else if score < -MATE_BOUND then score + ply
  else score

/-- transposition.c `TTPut` lines 110–114: mate-distance adjustment at store. -/
def adjustScore (score : Int) (ply : Nat) : Int :=
  if score > MATE_BOUND then score + ply
  else if score < -MATE_BOUND then score - ply
  else score

/-- transposition.c `TTProbe`: first slot of the bucket whose key equals the
hash yields its packed value; otherwise `NO_ENTRY`. -/
def TTProbe (bucket : List Slot) (hash : Nat) : Option TTBody :=
  match bucket with
  | [] => none
  | s :: rest => if s.1 = hash then s.2 else TTProbe rest hash

/-- Outcome of the replacement scan of `TTPut`. -/
inductive TTScanResult where
  | abort (existing : Option TTBody)
  | replaceAt (i : Nat)
deriving DecidableEq

/-- transposition.c `TTPut` lines 88–108: the bucket scan.  `i` is the index
of the slot at the head of the remaining list, `repIdx`/`repDepth` the
best replacement candidate so far. -/
def ttScan (hash : Nat) (depth : Int) (flag : Nat) :
    List Slot → Nat → Nat → Int → TTScanResult
  | [], _, repIdx, _ => .replaceAt repIdx
  | s :: rest, i, repIdx, repDepth =>
    if s.1 = 0 then .replaceAt i
    else
      let currDepth := TTDepth s.2
      if s.1 = hash then
        if currDepth > depth ∧ flag ≠ TT_EXACT then .abort s.2
        else .replaceAt i
      else if currDepth < repDepth then ttScan hash depth flag rest (i + 1) i currDepth
      else ttScan hash depth flag rest (i + 1) repIdx repDepth

/-- transposition.c `TTPut` on a single bucket: scan, then either return the
existing entry unchanged or overwrite the chosen slot with the freshly
packed entry (mate scores adjusted by the ply). -/
def TTPut (bucket : List Slot) (hash : Nat) (depth : Int) (score : Int) (flag : Nat)
    (move : Nat) (ply : Nat) (eval : Int) : List Slot × Option TTBody :=
  match ttScan hash depth flag bucket 0 0 INT32_MAX with
  | .abort e => (bucket, e)
  | .replaceAt i =>
    let e := TTEntry (adjustScore score ply) flag depth move eval
    (bucket.set i (hash, some e), some e)

/-- An empty bucket as produced by `TTInit`/`TTClear`. -/
def emptyBucket : List Slot := List.replicate BUCKET_SIZE (0, none)

/-- Modelled from the spec: `TTIdx` is in the missing transposition.h; the
spec fixes the bucket index to the low `P` bits of the hash, i.e. the hash
modulo the bucket count. -/
def TTIdx (numBuckets hash : Nat) : Nat := hash % numBuckets

/-! ### The collaborator environment (spec §6)

Move generation, board mechanics, SEE, evaluation and the externally
supplied constants are collaborators whose sources are not part of the
verified core; they are abstracted as an oracle record over positions
(`Nat`) and moves (`Nat`, with `NULL_MOVE = 0` the sentinel). -/
structure Env where
  numBuckets : Nat
  evaluate : Nat → Int
  isRepetition : Nat → Bool
  isMaterialDraw : Nat → Bool
  halfMove : Nat → Int
  checkers : Nat → Bool
  hasNonPawn : Nat → Bool
  zobrist : Nat → Nat
  xside : Nat → Nat
  squares : Nat → Nat → Nat
  makeMove : Nat → Nat → Nat
  nullMove : Nat → Nat
  generateMoves : Nat → List (Nat × Int)
  generateQuiesceMoves : Nat → List (Nat × Int)
  see : Nat → Nat → Int
  movePromo : Nat → Nat
  moveCapture : Nat → Bool
  moveEP : Nat → Bool
  moveEnd : Nat → Nat
  lmr : Int → Int → Int
  COUNTER : Int
  STATIC_MATERIAL_VALUE : Nat → Int
  stopSignal : Nat → Bool

/-! ### Search state (the `SearchData` and `SearchParams` fields the search
core reads and writes; ply-indexed arrays become functions). -/
structure SD where
  nodes : Nat
  seldepth : Nat
  stopped : Bool
  evals : Nat → Int
  moves : Nat → Nat
  skipMove : Nat → Nat
  table : Nat → List Slot

def SD.setEval (σ : SD) (p : Nat) (v : Int) : SD :=
  { σ with evals := fun q => if q = p then v else σ.evals q }

def SD.setMove (σ : SD) (p : Nat) (m : Nat) : SD :=
  { σ with moves := fun q => if q = p then m else σ.moves q }

def SD.setSkip (σ : SD) (p : Nat) (m : Nat) : SD :=
  { σ with skipMove := fun q => if q = p then m else σ.skipMove q }

/-- The search polls for a stop every 2048 nodes (`communicate`). -/
def communicate (E : Env) (σ : SD) : SD :=
  if σ.nodes % 2048 = 0 then
    (if E.stopSignal σ.nodes then { σ with stopped := true } else σ)
  else σ

def ttProbeT (E : Env) (σ : SD) (pos : Nat) : Option TTBody :=
  TTProbe (σ.table (TTIdx E.numBuckets (E.zobrist pos))) (E.zobrist pos)

def ttPutT (E : Env) (t : Nat → List Slot) (hash : Nat) (depth : Int) (score : Int)
    (flag : Nat) (move : Nat) (ply : Nat) (eval : Int) : Nat → List Slot :=
  let i := TTIdx E.numBuckets hash
  let b := (TTPut (t i) hash depth score flag move ply eval).1
  fun j => if j = i then b else t j

/-! ### Formula tables from initLMR (search.c lines 46–60); the LMR table
itself is floating-point-initialized data and is part of the oracle. -/
def LMP (improving : Bool) (depth : Int) : Int :=
  if improving then 3 + depth * depth else (3 + depth * depth).tdiv 2

def SEE (tactical : Bool) (depth : Int) : Int :=
  if tactical then SEE_PRUNE_CAPTURE_CUTOFF * depth else SEE_PRUNE_CUTOFF * depth * depth

def FUTILITY (depth : Int) : Int := FUTILITY_MARGIN * depth

/-! ### TT cutoff tests (search.c negamax lines 149–162, quiesce 345–356) -/
/-- The quiescence TT cutoff: EXACT always, LOWER at or above beta, UPPER at
or below alpha; the stored depth is never consulted. -/
def ttCutQ (v : Option TTBody) (alpha beta : Int) (p : Nat) : Option Int :=
  match v with
  | none => none
  | some _ =>
    let score := TTScore v p
    let flag := TTFlag v
    if flag = TT_EXACT then some score
    else if flag = TT_LOWER ∧ score ≥ beta then some score
    else if flag = TT_UPPER ∧ score ≤ alpha then some score
    else none

/-- The negamax TT cutoff: as in quiescence but only when the stored depth
reaches the remaining depth. -/
def ttCutN (v : Option TTBody) (depth alpha beta : Int) (p : Nat) : Option Int :=
  if TTDepth v ≥ depth then ttCutQ v alpha beta p else none

/-- The bound kind written by negamax's TT store (search.c line 319). -/
def flagOf (bestScore beta a0 : Int) : Nat :=
  if bestScore ≥ beta then TT_LOWER
  else if bestScore ≤ a0 then TT_UPPER
  else TT_EXACT

/-! ### Move selection

Modelled from the spec: `bubbleTopMove` lives in the missing movegen.c; the
spec says it "brings the highest-scoring move in [i, count) to position i"
(one selection-sort step), so iterating the list extracts, at each step, the
first move of maximal ordering score from the remainder. -/
def selectTop (m : Nat × Int) : List (Nat × Int) → (Nat × Int) × List (Nat × Int)
  | [] => (m, [])
  | x :: xs =>
    if x.2 > m.2 then
      let r := selectTop x xs
      (r.1, m :: r.2)
    else
      let r := selectTop m xs
      (r.1, x :: r.2)

/-- The per-move skip test of the quiescence move loop
(search.c lines 380–390): non-queen promotions are skipped; for the
remaining (capture) moves, delta pruning applies with the en-passant victim
read as a pawn. -/
def qSkip (E : Env) (pos : Nat) (eval alpha : Int) (move : Nat) : Bool :=
  if E.movePromo move ≠ 0 then
    decide (E.movePromo move < QUEEN WHITE)
  else
    let captured := if E.moveEP move then PAWN (E.xside pos) else E.squares pos (E.moveEnd move)
    decide (eval + DELTA_CUTOFF + E.STATIC_MATERIAL_VALUE (PIECE_TYPE captured) < alpha)

/-! ### The quiescence move loop (search.c lines 376–420). -/
def qLoopAux (E : Env) (child : Int → Int → Nat → Nat → SD → Int × SD)
    (beta : Int) (p : Nat) (pos : Nat) (eval : Int) :
    Nat → List (Nat × Int) → Int → Int → SD → Int × SD
  | 0, _, _, bestScore, σ => (bestScore, σ)
  | _ + 1, [], _, bestScore, σ => (bestScore, σ)
  | n + 1, m :: rest, alpha, bestScore, σ =>
    let sel := selectTop m rest
    let move := sel.1.1
    if qSkip E pos eval alpha move then
      qLoopAux E child beta p pos eval n sel.2 alpha bestScore σ
    else if sel.1.2 < 0 then (bestScore, σ)
    else
      let σ1 := σ.setMove p move
      let pos1 := E.makeMove move pos
      let r := child (-beta) (-alpha) (p + 1) pos1 σ1
      let score := -r.1
      let σ2 := r.2
      if σ2.stopped then (0, σ2)
      else if score > bestScore then
        let alpha' := if score > alpha then score else alpha
        if alpha' ≥ beta then (score, σ2)
        else qLoopAux E child beta p pos eval n sel.2 alpha' score σ2
      else qLoopAux E child beta p pos eval n sel.2 alpha bestScore σ2

/-! ### The negamax move loop (search.c lines 207–312). -/
inductive LoopOut where
  | ret (s : Int) (σ : SD)
  | done (bestScore : Int) (bestMove : Nat) (σ : SD)

/-- Per-node context shared by every iteration of the negamax move loop. -/
structure MLCtx where
  isPV : Bool
  isRoot : Bool
  depth : Int
  beta : Int
  p : Nat
  pos : Nat
  improving : Bool
  skipMove : Nat
  ttValue : Option TTBody

/-- The singular-extension probe for one move of the negamax loop
(search.c lines 228–242): either an early multi-cut return `.inl sBeta`, or
`.inr` carrying the extension flag and the state after the probe. -/
def singularStep (child : Int → Int → Int → Nat → Nat → SD → Int × SD)
    (c : MLCtx) (move : Nat) (σ : SD) : (Int × SD) ⊕ (Bool × SD) :=
  if c.depth ≥ 8 ∧ c.skipMove = 0 ∧ ¬c.isRoot = true ∧ move = TTMove c.ttValue ∧
      TTDepth c.ttValue ≥ c.depth - 3 ∧ |TTScore c.ttValue c.p| < MATE_BOUND ∧
      TTFlag c.ttValue = TT_LOWER then
    let sBeta := max (TTScore c.ttValue c.p - c.depth * 2) (-CHECKMATE)
    let sDepth := c.depth.tdiv 2 - 1
    let σ1 := σ.setSkip c.p move
    let r := child (sBeta - 1) sBeta sDepth c.p c.pos σ1
    let σ2 := r.2.setSkip c.p NULL_MOVE
    if r.1 < sBeta then .inr (true, σ2)
    else if sBeta ≥ c.beta then .inl (sBeta, σ2)
    else .inr (false, σ2)
  else .inr (false, σ)

/-- A negamaxed child call: search the child window and negate the score. -/
def negPair (child : Int → Int → Int → Nat → Nat → SD → Int × SD)
    (a b d : Int) (p1 pos1 : Nat) (σ : SD) : Int × SD :=
  let r := child a b d p1 pos1 σ
  (-r.1, r.2)

/-- The branching tail of the re-search ladder, over the already-computed
extension depth and LMR reduction. -/
def ladderTail (E : Env) (child : Int → Int → Int → Nat → Nat → SD → Int × SD)
    (c : MLCtx) (numMoves1 : Nat) (alpha : Int) (pos1 : Nat) (σ3 : SD)
    (newDepth R : Int) : Int × SD :=
  let st1 : Int × SD :=
    if R ≠ 1 then negPair child (-alpha - 1) (-alpha) (newDepth - R) (c.p + 1) pos1 σ3
    else (alpha + 1, σ3)
  let st2 : Int × SD :=
    if (R ≠ 1 ∧ st1.1 > alpha) ∨ (R = 1 ∧ (¬c.isPV = true ∨ numMoves1 > 1)) then
      negPair child (-alpha - 1) (-alpha) (newDepth - 1) (c.p + 1) pos1 st1.2
    else st1
  if c.isPV = true ∧ (numMoves1 = 1 ∨ (st2.1 > alpha ∧ (c.isRoot = true ∨ st2.1 < c.beta))) then
    negPair child (-c.beta) (-alpha) (newDepth - 1) (c.p + 1) pos1 st2.2
  else st2

/-- The re-search ladder for one move (search.c lines 248–275): the LMR
reduction, the reduced and full-depth null-window searches and the
full-window re-search, on the already-made move's position `pos1`. -/
def searchLadder (E : Env) (child : Int → Int → Int → Nat → Nat → SD → Int × SD)
    (c : MLCtx) (se tactical : Bool) (mscore : Int) (numMoves1 : Nat)
    (alpha : Int) (pos1 : Nat) (σ3 : SD) : Int × SD :=
  let newDepth := c.depth + (if se = true ∨ E.checkers pos1 then 1 else 0)
  let R : Int :=
    if c.depth ≥ 2 ∧ numMoves1 > 1 ∧ tactical = false then
      let r0 := E.lmr (min c.depth 63) (min (numMoves1 : Int) 63)
      let r1 := r0 + (if ¬c.isPV = true then 1 else 0) +
        (if ¬c.improving = true then 1 else 0) -
        (if mscore ≥ E.COUNTER then 1 else 0)
      let r2 := if mscore ≥ E.COUNTER then r1 - 1
        else r1 - min 2 ((mscore - 149).tdiv 50)
      min (c.depth - 1) (max r2 1)
    else 1
  ladderTail E child c numMoves1 alpha pos1 σ3 newDepth R

def moveLoopAux (E : Env) (child : Int → Int → Int → Nat → Nat → SD → Int × SD)
    (c : MLCtx) :
    Nat → List (Nat × Int) → Int → Int → Nat → Nat → SD → LoopOut
  | 0, _, _, bestScore, bestMove, _, σ => .done bestScore bestMove σ
  | _ + 1, [], _, bestScore, bestMove, _, σ => .done bestScore bestMove σ
  | n + 1, m :: rest, alpha, bestScore, bestMove, numMoves, σ =>
    let sel := selectTop m rest
    let move := sel.1.1
    let mscore := sel.1.2
    if move = c.skipMove then
      moveLoopAux E child c n sel.2 alpha bestScore bestMove numMoves σ
    else
      let tactical : Bool := decide (E.movePromo move ≠ 0) || E.moveCapture move
      if ¬c.isPV = true ∧ bestScore > -MATE_BOUND ∧ c.depth ≤ 8 ∧ tactical = false ∧
          (numMoves : Int) ≥ LMP c.improving c.depth then
        moveLoopAux E child c n sel.2 alpha bestScore bestMove numMoves σ
      else if ¬c.isPV = true ∧ bestScore > -MATE_BOUND ∧
          E.see c.pos move < SEE tactical c.depth then
        moveLoopAux E child c n sel.2 alpha bestScore bestMove numMoves σ
      else
        match singularStep child c move σ with
        | .inl ret1 => .ret ret1.1 ret1.2
        | .inr se =>
          let numMoves1 := numMoves + 1
          let σ3 := se.2.setMove c.p move
          let pos1 := E.makeMove move c.pos
          let st3 := searchLadder E child c se.1 tactical mscore numMoves1 alpha pos1 σ3
          let score := st3.1
          let σ4 := st3.2
          if σ4.stopped then .ret 0 σ4
          else if score > bestScore then
            let alpha' := if score > alpha then score else alpha
            if alpha' ≥ c.beta then .done score move σ4
            else moveLoopAux E child c n sel.2 alpha' score move numMoves1 σ4
          else moveLoopAux E child c n sel.2 alpha bestScore bestMove numMoves1 σ4

/-! ### quiesce and negamax (search.c lines 116–327 and 329–423).

The recursive knot is tied by an explicit fuel: `quiesceStep` and
`negamaxStep` are the function bodies abstracted over the recursive calls,
and `quiesce`/`negamax` feed them one fuel level less. -/
/-- The TT probe of a negamax node: skipped entirely during a singular
extension search (search.c lines 146–147). -/
def ttLookup (E : Env) (skipMove : Nat) (σ : SD) (pos : Nat) : Option TTBody :=
  if skipMove ≠ 0 then none else ttProbeT E σ pos

/-- The static evaluation used by a negamax node: the TT entry's stored
eval when a probe hit, else a fresh evaluate (search.c lines 168–172). -/
def eval0Of (E : Env) (ttValue : Option TTBody) (pos : Nat) : Int :=
  if ttValue.isSome then TTEval ttValue else E.evaluate pos

/-- The eval refined by a usable TT bound, fed to the pruning block
(search.c lines 174–178). -/
def pruneEvalOf (ttValue : Option TTBody) (depth : Int) (p : Nat) (eval0 : Int) : Int :=
  if ttValue.isSome ∧ TTDepth ttValue ≥ depth ∧
      TTFlag ttValue = (if TTScore ttValue p > eval0 then TT_LOWER else TT_UPPER) then
    TTScore ttValue p
  else eval0

/-- The stand-pat value of a quiescence node: the static (or TT-stored)
eval, refined by a usable TT bound (search.c lines 358–374). -/
def qStandPat (E : Env) (ttValue : Option TTBody) (pos : Nat) (p : Nat) : Int :=
  let eval0 := eval0Of E ttValue pos
  if ttValue.isSome ∧
      TTFlag ttValue = (if TTScore ttValue p > eval0 then TT_LOWER else TT_UPPER) then
    TTScore ttValue p
  else eval0

def quiesceStep (E : Env) (childQ : Int → Int → Nat → Nat → SD → Int × SD)
    (alpha beta : Int) (p : Nat) (pos : Nat) (σ : SD) : Int × SD :=
  let σ := { σ with nodes := σ.nodes + 1, seldepth := max σ.seldepth p }
  if E.isMaterialDraw pos ∨ E.isRepetition pos ∨ E.halfMove pos > 99 then (0, σ)
  else if p > MAX_DEPTH - 1 then (E.evaluate pos, σ)
  else
  let σ := communicate E σ
  let ttValue := ttProbeT E σ pos
  match ttCutQ ttValue alpha beta p with
  | some s => (s, σ)
  | none =>
  let σ := σ.setEval p (eval0Of E ttValue pos)
  let eval := qStandPat E ttValue pos p
  if eval ≥ beta then (eval, σ)
  else
  let alpha := if eval > alpha then eval else alpha
  qLoopAux E childQ beta p pos eval
    (E.generateQuiesceMoves pos).length (E.generateQuiesceMoves pos) alpha eval σ

def quiesce (E : Env) (alpha beta : Int) (p : Nat) (pos : Nat) (σ : SD)
    (fuel : Nat) : Int × SD :=
  match fuel with
  | 0 => (0, σ)
  | fuel + 1 =>
    quiesceStep E (fun a b q ps σ' => quiesce E a b q ps σ' fuel) alpha beta p pos σ

/-- The tail of a negamax node after the move loop (search.c lines
314–326): checkmate/stalemate detection and the TT store. -/
def negamaxCore (E : Env) (child : Int → Int → Int → Nat → Nat → SD → Int × SD)
    (c : MLCtx) (alpha a0 : Int) (σ : SD) : Int × SD :=
  let moveList := E.generateMoves c.pos
  match moveLoopAux E child c moveList.length moveList alpha (-CHECKMATE) 0 0 σ with
  | .ret s σ' => (s, σ')
  | .done bestScore bestMove σ' =>
    if moveList = [] then
      (if E.checkers c.pos then -CHECKMATE + c.p else 0, σ')
    else if c.skipMove = 0 then
      let t := ttPutT E σ'.table (E.zobrist c.pos) c.depth bestScore
        (flagOf bestScore c.beta a0) bestMove c.p (σ'.evals c.p)
      (bestScore, { σ' with table := t })
    else (bestScore, σ')

/-- The null-move depth reduction, capped at the remaining depth
(search.c lines 188–190). -/
def nullReduction (depth pruneEval beta : Int) : Int :=
  let R0 := 3 + depth.tdiv 6 + min ((pruneEval - beta).tdiv 200) 3
  if R0 > depth then depth else R0

/-- Mate-distance clamp of alpha at a non-root node (search.c line 141). -/
def clampAlpha (isRoot : Bool) (alpha : Int) (p : Nat) : Int :=
  if isRoot then alpha else max alpha (-CHECKMATE + p)

/-- Mate-distance clamp of beta at a non-root node (search.c line 142). -/
def clampBeta (isRoot : Bool) (beta : Int) (p : Nat) : Int :=
  if isRoot then beta else min beta (CHECKMATE - p - 1)

/-- The preamble of a negamax node (search.c lines 116–205 up to reverse
futility pruning): either an early exit `.inl (score, state)`, or `.inr`
with the node context, the clamped alpha, the alpha at entry, the possibly
TT-refined eval used by the pruning block, and the updated state. -/
def negamaxPre (E : Env) (childQ : Int → Int → Nat → Nat → SD → Int × SD)
    (alpha beta depth : Int) (p : Nat) (pos : Nat) (σ : SD) :
    (Int × SD) ⊕ (MLCtx × Int × Int × Int × SD) :=
  let isPV := decide (beta - alpha ≠ 1)
  let isRoot := decide (p = 0)
  let a0 := alpha
  let skipMove := σ.skipMove p
  if depth = 0 then .inl (childQ alpha beta p pos σ)
  else
  let σ := { σ with nodes := σ.nodes + 1, seldepth := max σ.seldepth p }
  if ¬isRoot = true ∧ (E.isRepetition pos ∨ E.isMaterialDraw pos ∨ E.halfMove pos > 99) then
    .inl (0, σ)
  else if ¬isRoot = true ∧ p > MAX_DEPTH - 1 then .inl (E.evaluate pos, σ)
  else
  let alpha := clampAlpha isRoot alpha p
  let beta := clampBeta isRoot beta p
  if ¬isRoot = true ∧ alpha ≥ beta then .inl (alpha, σ)
  else
  let σ := communicate E σ
  let ttValue := ttLookup E skipMove σ pos
  match ttCutN ttValue depth alpha beta p with
  | some s => .inl (s, σ)
  | none =>
  let eval0 := eval0Of E ttValue pos
  let σ := σ.setEval p eval0
  let improving := decide (2 ≤ p ∧ eval0 > σ.evals (p - 2))
  let σ := σ.setSkip (p + 1) NULL_MOVE
  let pruneEval := pruneEvalOf ttValue depth p eval0
  if ¬isPV = true ∧ ¬E.checkers pos ∧ depth ≤ 6 ∧ pruneEval - FUTILITY depth ≥ beta ∧
      pruneEval < MATE_BOUND then
    .inl (pruneEval, σ)
  else
    .inr (⟨isPV, isRoot, depth, beta, p, pos, improving, skipMove, ttValue⟩, alpha, a0,
      pruneEval, σ)

def negamaxStep (E : Env) (child : Int → Int → Int → Nat → Nat → SD → Int × SD)
    (childQ : Int → Int → Nat → Nat → SD → Int × SD)
    (alpha beta depth : Int) (p : Nat) (pos : Nat) (σ : SD) : Int × SD :=
  match negamaxPre E childQ alpha beta depth p pos σ with
  | .inl r => r
  | .inr (c, alpha, a0, pruneEval, σ) =>
    if ¬c.isPV = true ∧ ¬E.checkers c.pos ∧ c.depth ≥ 3 ∧ σ.moves (c.p - 1) ≠ NULL_MOVE ∧
        c.skipMove = 0 ∧ pruneEval ≥ c.beta ∧ E.hasNonPawn c.pos then
      let σn := σ.setMove c.p NULL_MOVE
      let r := child (-c.beta) (-c.beta + 1) (c.depth - nullReduction c.depth pruneEval c.beta)
        (c.p + 1) (E.nullMove c.pos) σn
      if r.2.stopped then (0, r.2)
      else if -r.1 ≥ c.beta then (c.beta, r.2)
      else negamaxCore E child c alpha a0 r.2
    else negamaxCore E child c alpha a0 σ

def negamax (E : Env) (alpha beta depth : Int) (p : Nat) (pos : Nat) (σ : SD)
    (fuel : Nat) : Int × SD :=
  match fuel with
  | 0 => (0, σ)
  | fuel + 1 =>
    negamaxStep E (fun a b d q ps σ' => negamax E a b d q ps σ' fuel)
      (fun a b q ps σ' => quiesce E a b q ps σ' fuel) alpha beta depth p pos σ

/-! ### The iterative-deepening driver (search.c `Search`, lines 76–114). -/
def aspirationDelta (depth : Nat) : Int := if depth ≥ 5 then 10 else CHECKMATE

/-- The initial aspiration window of an iteration (search.c lines 89–91). -/
def aspirationInit (score : Int) (depth : Nat) : Int × Int :=
  (max (score - aspirationDelta depth) (-CHECKMATE),
   min (score + aspirationDelta depth) CHECKMATE)

/-- The fail-low widening step (search.c lines 96–98): returns the new
(alpha, beta). -/
def aspirationFailLow (alpha beta delta : Int) : Int × Int :=
  (max (alpha - delta) (-CHECKMATE), (alpha + beta).tdiv 2)

/-- The fail-high widening step (search.c line 100): the new beta. -/
def aspirationFailHigh (beta delta : Int) : Int :=
  min (beta + delta) CHECKMATE

/-- The delta growth after each widening (search.c line 106). -/
def deltaGrow (delta : Int) : Int := delta + delta.tdiv 2

/-- The widening loop of one iteration (search.c lines 93–107), with its own
fuel since a mated root can fail low forever. -/
def aspWiden (E : Env) (pos : Nat) (depth : Nat) (nfuel : Nat) :
    Nat → Int → Int → Int → Int → SD → Int × SD
  | 0, _, _, _, score, σ => (score, σ)
  | w + 1, delta, alpha, beta, score, σ =>
    if σ.stopped then (score, σ)
    else
      let r := negamax E alpha beta (depth : Int) 0 pos σ nfuel
      if r.1 ≤ alpha then
        let ab := aspirationFailLow alpha beta delta
        aspWiden E pos depth nfuel w (deltaGrow delta) ab.1 ab.2 r.1 r.2
      else if r.1 ≥ beta then
        aspWiden E pos depth nfuel w (deltaGrow delta) alpha (aspirationFailHigh beta delta) r.1 r.2
      else (r.1, r.2)

def iterDeep (E : Env) (pos : Nat) (nfuel wfuel : Nat) :
    Nat → Nat → Int → SD → Int × SD
  | 0, _, score, σ => (score, σ)
  | n + 1, depth, score, σ =>
    if σ.stopped then (score, σ)
    else
      let ab := aspirationInit score depth
      let r := aspWiden E pos depth nfuel wfuel (aspirationDelta depth) ab.1 ab.2 score σ
      iterDeep E pos nfuel wfuel n (depth + 1) r.1 r.2

/-- The cleared search state produced by `ttClear` + `initSearchData`. -/
def initSD (stopped0 : Bool) : SD :=
  { nodes := 0, seldepth := 0, stopped := stopped0,
    evals := fun _ => 0, moves := fun _ => 0, skipMove := fun _ => 0,
    table := fun _ => emptyBucket }

/-- search.c `Search`: clear the TT and search data, search depth 1 on the
full window, then iterate depths 2..target with aspiration windows;
the final score is the last one computed. -/
def Search (E : Env) (pos : Nat) (targetDepth : Nat) (nfuel wfuel : Nat)
    (stopped0 : Bool) : Int × SD :=
  let σ0 := initSD stopped0
  let r := negamax E (-CHECKMATE) CHECKMATE 1 0 pos σ0 nfuel
  iterDeep E pos nfuel wfuel (targetDepth - 1) 2 r.1 r.2

/-! ### Score-bound invariants (for the score-bound properties of the two
searches).  A table entry is in bounds when its raw stored score lies in
[−CHECKMATE, CHECKMATE] and its stored static eval in
[−MATE_BOUND, MATE_BOUND]; a state is in bounds when every table entry and
every recorded ply eval is. -/
def entryOK (b : TTBody) : Prop :=
  -CHECKMATE ≤ b.score ∧ b.score ≤ CHECKMATE ∧
  -MATE_BOUND ≤ b.eval ∧ b.eval ≤ MATE_BOUND

def tableOK (t : Nat → List Slot) : Prop :=
  ∀ i sl, sl ∈ t i → ∀ b, sl.2 = some b → entryOK b

def Inv (σ : SD) : Prop :=
  tableOK σ.table ∧ ∀ q, -MATE_BOUND ≤ σ.evals q ∧ σ.evals q ≤ MATE_BOUND

/-- Skip-array discipline of a frame at ply `p`: indices up to `p` are
restored on exit, and cleared indices beyond `p` stay cleared. -/
def SkipOK (p : Nat) (σin σout : SD) : Prop :=
  (∀ j, j ≤ p → σout.skipMove j = σin.skipMove j) ∧
  (∀ j, p < j → σin.skipMove j = 0 → σout.skipMove j = 0)

/-- The inductive obligations of a search child call: score within the
mate-distance bounds of its ply (the lower bound provided no singular move
is pending at that ply), preservation of the score-bound invariant, and the
skip-array discipline. -/
def ChildOK (child : Int → Int → Int → Nat → Nat → SD → Int × SD) : Prop :=
  ∀ (a b d : Int) (q ps : Nat) (σ' : SD), Inv σ' → q ≤ 2048 → a ≤ CHECKMATE - (q : Int) →
    (q = 0 → -CHECKMATE ≤ a ∧ a < b ∧ b ≤ CHECKMATE) →
    (child a b d q ps σ').1 ≤ CHECKMATE - (q : Int) ∧
    (σ'.skipMove q = 0 → -CHECKMATE + (q : Int) ≤ (child a b d q ps σ').1) ∧
    Inv (child a b d q ps σ').2 ∧
    SkipOK q σ' (child a b d q ps σ').2

/-- The non-empty slots of a bucket form a prefix: no zero key precedes a
non-zero key in scan order. -/
def prefixOK : List Slot → Bool
  | [] => true
  | s :: rest => if s.1 = 0 then rest.all (fun t => t.1 == 0) else prefixOK rest

/-- Buckets reachable from an initialized bucket by any sequence of puts. -/
inductive BucketReach : List Slot → Prop where
  | init : BucketReach emptyBucket
  | put (b : List Slot) (hash : Nat) (d score : Int) (flag move ply : Nat) (ev : Int) :
      BucketReach b → BucketReach (TTPut b hash d score flag move ply ev).1

/-- Buckets reachable when every put's hash is non-zero. -/
inductive BucketReachNZ : List Slot → Prop where
  | init : BucketReachNZ emptyBucket
  | put (b : List Slot) (hash : Nat) (d score : Int) (flag move ply : Nat) (ev : Int) :
      hash ≠ 0 → BucketReachNZ b → BucketReachNZ (TTPut b hash d score flag move ply ev).1

/-- A concrete collaborator environment for witnesses and counterexamples. -/
def Ew : Env :=
  { numBuckets := 4
    evaluate := fun _ => 7
    isRepetition := fun _ => false
    isMaterialDraw := fun _ => false
    halfMove := fun _ => 0
    checkers := fun _ => false
    hasNonPawn := fun _ => true
    zobrist := fun pos => pos + 1
    xside := fun _ => 1
    squares := fun _ _ => 0
    makeMove := fun _ pos => pos + 1
    nullMove := fun pos => pos
    generateMoves := fun _ => [(7, 0)]
    generateQuiesceMoves := fun _ => []
    see := fun _ _ => 0
    movePromo := fun _ => 0
    moveCapture := fun _ => true
    moveEP := fun _ => false
    moveEnd := fun _ => 0
    lmr := fun _ _ => 1
    COUNTER := 1000000
    STATIC_MATERIAL_VALUE := fun _ => 100
    stopSignal := fun _ => false }

/-- A search state whose TT holds an EXACT entry of score 40 for the
position hashed to 1 (position 0 under `Ew`). -/
def σ40 : SD :=
  { initSD false with
    table := fun i =>
      if i = TTIdx 4 1 then [(1, some (TTEntry 40 TT_EXACT 3 0 0)), (0, none)]
      else emptyBucket }

/-! ## The ply limit (search.c lines 136–137 and 339–340) -/
/-- An environment whose positions are all repetition draws. -/
def Edraw : Env := { Ew with isRepetition := fun _ => true }

/-! ## The quiescence skip tests (search.c lines 380–390) -/
/-- An environment whose only noisy move is a capturing queen promotion. -/
def E8 : Env := { Ew with movePromo := fun _ => 8, STATIC_MATERIAL_VALUE := fun _ => 100 }

/-! ## The TT write bound kind (search.c lines 122, 318–321) -/
/-- A search state whose TT holds, for the position hashed to 2, an EXACT
entry with raw score −32767, read back as a mated score at ply 2. -/
def σc7 : SD :=
  { initSD false with
    table := fun i =>
      if i = TTIdx 4 2 then [(2, some (TTEntry (-32767) TT_EXACT 99 9 5)), (0, none)]
      else emptyBucket }

/-! ## Cancellation: behaviour once the stop flag is set -/
/-- The state carried out of a move-loop outcome. -/
def outSD : LoopOut → SD
  | .ret _ σ => σ
  | .done _ _ σ => σ

/-- A stopped search state whose TT holds an EXACT entry of score 42 at
depth 3 for the position hashed to 1 (position 0 under `Ew`). -/
def σstop : SD :=
  { initSD true with
    table := fun i =>
      if i = TTIdx 4 1 then [(1, some (TTEntry 42 TT_EXACT 3 0 0)), (0, none)]
      else emptyBucket }

/-! ## Claim C3: score lower bounds of the two searches -/
/-- An environment like `Ew` whose quiescence generator emits one
non-skipped capture. -/
def E3 : Env := { Ew with generateQuiesceMoves := fun _ => [(7, 0)] }

/-- A search state in which a singular-verification exclusion of move 7 is
pending at ply 1. -/
def σskip : SD := { initSD false with skipMove := fun q => if q = 1 then 7 else 0 }

theorem selectTop_length (m : Nat × Int) (l : List (Nat × Int)) :
    (selectTop m l).2.length = l.length := by
  induction l generalizing m with
  | nil => rfl
  | cons x xs ih =>
    simp only [selectTop]
    split <;> simp [ih]

theorem quiesce_succ (E : Env) (alpha beta : Int) (p : Nat) (pos : Nat) (σ : SD)
    (fuel : Nat) :
    quiesce E alpha beta p pos σ (fuel + 1) =
      quiesceStep E (fun a b q ps σ' => quiesce E a b q ps σ' fuel) alpha beta p pos σ := rfl

theorem negamax_succ (E : Env) (alpha beta depth : Int) (p : Nat) (pos : Nat) (σ : SD)
    (fuel : Nat) :
    negamax E alpha beta depth p pos σ (fuel + 1) =
      negamaxStep E (fun a b d q ps σ' => negamax E a b d q ps σ' fuel)
        (fun a b q ps σ' => quiesce E a b q ps σ' fuel) alpha beta depth p pos σ := rfl

/-! ## Theorems about the transposition table -/
theorem adjustScore_roundtrip (score : Int) (ply : Nat) (flag : Nat) (d : Int)
    (move : Nat) (ev : Int) :
    TTScore (some (TTEntry (adjustScore score ply) flag d move ev)) ply = score := by
  have hply : (0 : Int) ≤ (ply : Int) := Int.ofNat_nonneg ply
  simp only [TTScore, ttRaw, TTEntry, Option.map_some', Option.getD_some, adjustScore,
    MATE_BOUND]
  split_ifs <;> omega

/-- C2: mate adjustment on TT store and read is symmetric: scores above
`MATE_BOUND` are stored as `score + ply`, scores below `-MATE_BOUND` as
`score - ply`, reading back at the same ply returns the original score, and
scores of magnitude at most `MATE_BOUND` are stored (and returned)
unmodified. -/
theorem C2_mate_adjustment_symmetric (score : Int) (ply : Nat) (flag : Nat) (d : Int)
    (move : Nat) (ev : Int) :
    TTScore (some (TTEntry (adjustScore score ply) flag d move ev)) ply = score ∧
    (score > MATE_BOUND → adjustScore score ply = score + ply) ∧
    (score < -MATE_BOUND → adjustScore score ply = score - ply) ∧
    (|score| ≤ MATE_BOUND →
      adjustScore score ply = score ∧
      TTScore (some (TTEntry (adjustScore score ply) flag d move ev)) ply = score) := by
  refine ⟨adjustScore_roundtrip score ply flag d move ev, ?_, ?_,
    fun h => ⟨?_, adjustScore_roundtrip score ply flag d move ev⟩⟩
  · intro hs
    simp only [adjustScore, MATE_BOUND] at *
    split_ifs <;> omega
  · intro hs
    simp only [adjustScore, MATE_BOUND] at *
    split_ifs <;> omega
  · rw [abs_le] at h
    simp only [adjustScore, MATE_BOUND] at *
    split_ifs <;> omega

theorem C2_mate_adjustment_symmetric_witness :
    TTScore (some (TTEntry (adjustScore 30005 3) TT_EXACT 7 9 0)) 3 = 30005 ∧
    adjustScore 30005 3 = 30005 + 3 ∧
    adjustScore 17 3 = 17 := by
  have h1 := C2_mate_adjustment_symmetric 30005 3 TT_EXACT 7 9 0
  have h2 := C2_mate_adjustment_symmetric 17 3 TT_EXACT 7 9 0
  refine ⟨h1.1, h1.2.1 (by decide), (h2.2.2.2 (by decide)).1⟩

/-- C1: the slot selected by `TTPut` on a (two-entry) bucket, exactly as the
replacement policy describes it: a first empty slot wins over a later key
match; a key match wins otherwise, except that a deeper stored entry aborts
a non-EXACT write and is returned unchanged; and with neither an empty slot
nor a match, the non-matching slot of strictly smallest stored depth is
evicted (ties going to the earlier slot).  The depth hypotheses in the
eviction case only record that stored depths are below `INT32_MAX`, which
every packed entry satisfies. -/
theorem C1_ttput_slot_policy (s0 s1 : Slot) (hash : Nat) (d score : Int)
    (flag move : Nat) (ply : Nat) (ev : Int) :
    (s0.1 = 0 →
      TTPut [s0, s1] hash d score flag move ply ev =
        ([(hash, some (TTEntry (adjustScore score ply) flag d move ev)), s1],
          some (TTEntry (adjustScore score ply) flag d move ev))) ∧
    (s0.1 ≠ 0 → s0.1 ≠ hash → s1.1 = 0 →
      TTPut [s0, s1] hash d score flag move ply ev =
        ([s0, (hash, some (TTEntry (adjustScore score ply) flag d move ev))],
          some (TTEntry (adjustScore score ply) flag d move ev))) ∧
    (s0.1 ≠ 0 → s0.1 = hash →
      (TTDepth s0.2 > d ∧ flag ≠ TT_EXACT →
        TTPut [s0, s1] hash d score flag move ply ev = ([s0, s1], s0.2)) ∧
      (¬(TTDepth s0.2 > d ∧ flag ≠ TT_EXACT) →
        TTPut [s0, s1] hash d score flag move ply ev =
          ([(hash, some (TTEntry (adjustScore score ply) flag d move ev)), s1],
            some (TTEntry (adjustScore score ply) flag d move ev)))) ∧
    (s0.1 ≠ 0 → s0.1 ≠ hash → s1.1 ≠ 0 → s1.1 = hash → TTDepth s0.2 < INT32_MAX →
      (TTDepth s1.2 > d ∧ flag ≠ TT_EXACT →
        TTPut [s0, s1] hash d score flag move ply ev = ([s0, s1], s1.2)) ∧
      (¬(TTDepth s1.2 > d ∧ flag ≠ TT_EXACT) →
        TTPut [s0, s1] hash d score flag move ply ev =
          ([s0, (hash, some (TTEntry (adjustScore score ply) flag d move ev))],
            some (TTEntry (adjustScore score ply) flag d move ev)))) ∧
    (s0.1 ≠ 0 → s0.1 ≠ hash → s1.1 ≠ 0 → s1.1 ≠ hash →
      TTDepth s0.2 < INT32_MAX → TTDepth s1.2 < INT32_MAX →
      (TTDepth s1.2 < TTDepth s0.2 →
        TTPut [s0, s1] hash d score flag move ply ev =
          ([s0, (hash, some (TTEntry (adjustScore score ply) flag d move ev))],
            some (TTEntry (adjustScore score ply) flag d move ev))) ∧
      (TTDepth s0.2 ≤ TTDepth s1.2 →
        TTPut [s0, s1] hash d score flag move ply ev =
          ([(hash, some (TTEntry (adjustScore score ply) flag d move ev)), s1],
            some (TTEntry (adjustScore score ply) flag d move ev)))) := by
  refine ⟨?_, ?_, ?_, ?_, ?_⟩
  · intro h0
    simp only [TTPut, ttScan, if_pos h0]
    simp [List.set]
  · intro h0 hm h1
    by_cases hc : TTDepth s0.2 < INT32_MAX
    · simp only [TTPut, ttScan, if_neg h0, if_neg hm, if_pos hc, if_pos h1]
      simp [List.set]
    · simp only [TTPut, ttScan, if_neg h0, if_neg hm, if_neg hc, if_pos h1]
      simp [List.set]
  · intro h0 hm
    constructor
    · intro habort
      simp only [TTPut, ttScan, if_neg h0, if_pos hm, if_pos habort]
    · intro hok
      simp only [TTPut, ttScan, if_neg h0, if_pos hm, if_neg hok]
      simp [List.set]
  · intro h0 hm h1 hm1 hd0
    constructor
    · intro habort
      simp only [TTPut, ttScan, if_neg h0, if_neg hm, if_pos hd0, if_neg h1, if_pos hm1,
        if_pos habort]
    · intro hok
      simp only [TTPut, ttScan, if_neg h0, if_neg hm, if_pos hd0, if_neg h1, if_pos hm1,
        if_neg hok]
      simp [List.set]
  · intro h0 hm h1 hm1 hd0 hd1
    constructor
    · intro hlt
      simp only [TTPut, ttScan, if_neg h0, if_neg hm, if_pos hd0, if_neg h1, if_neg hm1,
        if_pos hlt]
      simp [List.set]
    · intro hle
      have hnlt : ¬ TTDepth s1.2 < TTDepth s0.2 := by omega
      simp only [TTPut, ttScan, if_neg h0, if_neg hm, if_pos hd0, if_neg h1, if_neg hm1,
        if_neg hnlt]
      simp [List.set]

/-- A put on a two-slot bucket either aborts, writes slot 0, or writes
slot 1 — and writing slot 1 happens only with slot 0 occupied. -/
theorem TTPut_two_shape (s0 s1 : Slot) (hash : Nat) (d score : Int)
    (flag move ply : Nat) (ev : Int) :
    (TTPut [s0, s1] hash d score flag move ply ev).1 = [s0, s1] ∨
    (TTPut [s0, s1] hash d score flag move ply ev).1 =
      [(hash, some (TTEntry (adjustScore score ply) flag d move ev)), s1] ∨
    (s0.1 ≠ 0 ∧ (TTPut [s0, s1] hash d score flag move ply ev).1 =
      [s0, (hash, some (TTEntry (adjustScore score ply) flag d move ev))]) := by
  simp only [TTPut, ttScan]
  split_ifs <;> simp_all [List.set]

/-- C10 counterexample: from an initialized bucket, puts with hashes 1
(depth 4) and 2 (depth 5) followed by a put with hash 0 evict the
lower-depth slot 0 and leave a zero key ahead of a non-zero key, refuting
the prefix invariant for arbitrary put sequences. -/
theorem C10_counterexample :
    BucketReach (TTPut (TTPut (TTPut emptyBucket 1 4 0 TT_EXACT 0 0 0).1
        2 5 0 TT_EXACT 0 0 0).1 0 9 0 TT_EXACT 0 0 0).1 ∧
    prefixOK (TTPut (TTPut (TTPut emptyBucket 1 4 0 TT_EXACT 0 0 0).1
        2 5 0 TT_EXACT 0 0 0).1 0 9 0 TT_EXACT 0 0 0).1 = false := by
  refine ⟨.put _ _ _ _ _ _ _ _ (.put _ _ _ _ _ _ _ _ (.put _ _ _ _ _ _ _ _ .init)), ?_⟩
  decide

theorem prefixOK_single (s : Slot) : prefixOK [s] = true := by
  simp only [prefixOK]
  split_ifs <;> simp

/-- C10 amended: as long as every put carries a non-zero hash — which every
Zobrist key written by the search satisfies — the non-empty slots of a
reachable bucket do form a prefix, so the early break of `TTPut` at the
first empty slot cannot shadow a matching entry. -/
theorem C10_nonzero_puts_keep_prefix (b : List Slot) (h : BucketReachNZ b) :
    prefixOK b = true := by
  suffices hs : ∃ s0 s1, b = [s0, s1] ∧ prefixOK b = true by exact hs.choose_spec.choose_spec.2
  induction h with
  | init => exact ⟨(0, none), (0, none), rfl, by decide⟩
  | put b hash d score flag move ply ev hnz hb ih =>
    obtain ⟨s0, s1, rfl, hpre⟩ := ih
    rcases TTPut_two_shape s0 s1 hash d score flag move ply ev with heq | heq | ⟨h0, heq⟩
    · refine ⟨s0, s1, heq, ?_⟩
      rw [heq]
      exact hpre
    · refine ⟨_, _, heq, ?_⟩
      rw [heq]
      simp only [prefixOK, if_neg hnz]
      split_ifs <;> simp
    · refine ⟨_, _, heq, ?_⟩
      rw [heq]
      simp only [prefixOK, if_neg h0]
      split_ifs <;> simp

theorem C10_nonzero_puts_keep_prefix_witness :
    prefixOK (TTPut (TTPut emptyBucket 1 4 0 TT_EXACT 0 0 0).1
      2 5 0 TT_EXACT 0 0 0).1 = true :=
  C10_nonzero_puts_keep_prefix _
    (.put _ _ _ _ _ _ _ _ (by decide) (.put _ _ _ _ _ _ _ _ (by decide) .init))

theorem C1_ttput_slot_policy_witness :
    TTPut [((0 : Nat), (none : Option TTBody)), (0, none)] 5 3 10 TT_EXACT 9 0 4 =
      ([(5, some (TTEntry 10 TT_EXACT 3 9 4)), (0, none)],
        some (TTEntry 10 TT_EXACT 3 9 4)) := by
  have h := (C1_ttput_slot_policy ((0 : Nat), (none : Option TTBody)) (0, none)
    5 3 10 TT_EXACT 9 0 4).1 rfl
  simpa [adjustScore, MATE_BOUND] using h

/-! ## State plumbing lemmas -/
theorem communicate_table (E : Env) (σ : SD) : (communicate E σ).table = σ.table := by
  simp only [communicate]
  split_ifs <;> rfl

theorem ttProbeT_communicate (E : Env) (σ : SD) (pos : Nat) :
    ttProbeT E (communicate E σ) pos = ttProbeT E σ pos := by
  simp only [ttProbeT, communicate_table]

/-! ## Theorems about the TT cutoff policy of the two searches -/
/-- C9: the quiescence TT cutoff never consults the stored depth (changing
an entry's depth does not change the cutoff), returns EXACT scores always
and LOWER/UPPER scores under the beta/alpha conditions — as a concrete run
of `quiesce` on a TT hit shows — while the negamax cutoff yields nothing
whenever the stored depth is below the remaining depth and otherwise agrees
with the quiescence rule. -/
theorem C9_tt_cutoff_depth_policy (E : Env) (σ : SD) (alpha beta : Int) (p : Nat)
    (pos : Nat) (b : TTBody) (d' d : Int) (fuel : Nat) :
    (ttCutQ (some { b with depth := d' }) alpha beta p = ttCutQ (some b) alpha beta p) ∧
    (TTDepth (some b) < d → ttCutN (some b) d alpha beta p = none) ∧
    (TTDepth (some b) ≥ d → ttCutN (some b) d alpha beta p = ttCutQ (some b) alpha beta p) ∧
    (E.isMaterialDraw pos = false → E.isRepetition pos = false → E.halfMove pos ≤ 99 →
      p ≤ MAX_DEPTH - 1 → ttProbeT E σ pos = some b → TTFlag (some b) = TT_EXACT →
      (quiesce E alpha beta p pos σ (fuel + 1)).1 = TTScore (some b) p) := by
  refine ⟨rfl, fun h => ?_, fun h => ?_, fun hmd hrep hhm hply hprobe hflag => ?_⟩
  · simp only [ttCutN, if_neg (by omega : ¬ TTDepth (some b) ≥ d)]
  · simp only [ttCutN, if_pos h]
  · have hguard : ¬ p > MAX_DEPTH - 1 := by omega
    have hdraw : ¬ (E.isMaterialDraw pos = true ∨ E.isRepetition pos = true ∨
        E.halfMove pos > 99) := by
      simp [hmd, hrep]
      omega
    have hp2 : ttProbeT E (communicate E
        { σ with nodes := σ.nodes + 1, seldepth := max σ.seldepth p }) pos = some b :=
      (ttProbeT_communicate E _ pos).trans hprobe
    simp only [quiesce, quiesceStep, if_neg hdraw, if_neg hguard]
    rw [hp2]
    simp only [ttCutQ, hflag, if_pos rfl, if_true]

theorem C9_tt_cutoff_depth_policy_witness :
    ttCutN (some (TTEntry 40 TT_EXACT 2 0 0)) 3 0 10 1 = none ∧
    (quiesce Ew 0 10 1 0 σ40 3).1 = 40 := by
  have h1 := C9_tt_cutoff_depth_policy Ew σ40 0 10 1 0 (TTEntry 40 TT_EXACT 2 0 0) 0 3 2
  have h2 := C9_tt_cutoff_depth_policy Ew σ40 0 10 1 0 (TTEntry 40 TT_EXACT 3 0 0) 0 3 2
  refine ⟨h1.2.1 (by decide), ?_⟩
  have h3 := h2.2.2.2 rfl rfl (by decide) (by decide) (by decide) rfl
  rw [h3]
  decide

/-- C5 counterexample: at ply 127 (which satisfies
`ply ≥ MAX_SEARCH_PLY − 1`) on a repetition-draw position, quiescence
returns the draw score 0 and not the static evaluation 7 — the draw check
runs before the ply limit, and the code's limit test is
`ply > MAX_DEPTH − 1`, not `ply ≥ MAX_SEARCH_PLY − 1`. -/
theorem C5_counterexample :
    127 ≥ MAX_SEARCH_PLY - 1 ∧
    (quiesce Edraw 0 1 127 0 (initSD false) 5).1 = 0 ∧
    Edraw.evaluate 0 = 7 := by
  refine ⟨by decide, by decide, rfl⟩

/-- C5 amended: in both searches the static evaluation is returned at the
ply limit provided the position is not an immediate draw and the limit test
is the code's `ply > MAX_DEPTH − 1` (so `ply ≥ 128`, not `ply ≥ 127`); for
negamax, additionally `depth ≠ 0` (depth 0 delegates to quiescence, whose
own guard then applies at the same ply). -/
theorem C5_ply_limit_returns_eval (E : Env) (alpha beta depth : Int) (p : Nat)
    (pos : Nat) (σ : SD) (fuel : Nat)
    (hd : ¬(E.isMaterialDraw pos = true ∨ E.isRepetition pos = true ∨ E.halfMove pos > 99))
    (hp : p > MAX_DEPTH - 1) :
    (quiesce E alpha beta p pos σ (fuel + 1)).1 = E.evaluate pos ∧
    (depth ≠ 0 → (negamax E alpha beta depth p pos σ (fuel + 1)).1 = E.evaluate pos) := by
  have hne : p ≠ 0 := by
    simp only [MAX_DEPTH] at hp
    omega
  have hroot : ¬(decide (p = 0) = true) := by simp [hne]
  have hd' : ¬(E.isRepetition pos = true ∨ E.isMaterialDraw pos = true ∨
      E.halfMove pos > 99) := by tauto
  constructor
  · simp only [quiesce, quiesceStep, if_neg hd, if_pos hp]
  · intro hdep
    have hcond1 : ¬(¬decide (p = 0) = true ∧ (E.isRepetition pos = true ∨
        E.isMaterialDraw pos = true ∨ E.halfMove pos > 99)) := fun h => hd' h.2
    have hcond2 : ¬decide (p = 0) = true ∧ p > MAX_DEPTH - 1 := ⟨hroot, hp⟩
    simp only [negamax, negamaxStep, negamaxPre, if_neg hdep, if_neg hcond1, if_pos hcond2]

theorem C5_ply_limit_returns_eval_witness :
    (quiesce Ew 0 1 130 0 (initSD false) 4).1 = Ew.evaluate 0 ∧
    (negamax Ew 0 1 2 130 0 (initSD false) 4).1 = Ew.evaluate 0 := by
  have h := C5_ply_limit_returns_eval Ew 0 1 2 130 0 (initSD false) 3 (by decide) (by decide)
  exact ⟨h.1, h.2 (by decide)⟩

/-- C8 counterexample: a capturing queen promotion is a capture satisfying
the delta-pruning inequality, yet the quiescence loop does not skip it —
the delta test sits in the non-promotion branch of the code. -/
theorem C8_counterexample :
    E8.moveCapture 3 = true ∧
    (-1000 : Int) + DELTA_CUTOFF +
      E8.STATIC_MATERIAL_VALUE (PIECE_TYPE (E8.squares 0 (E8.moveEnd 3))) < 5000 ∧
    qSkip E8 0 (-1000) 5000 3 = false := by
  refine ⟨rfl, by decide, by decide⟩

/-- C8 amended: in the quiescence move loop a non-queen promotion is always
skipped; delta pruning with margin `DELTA_CUTOFF = 200` (the en-passant
victim read as a pawn) applies exactly to the *non-promotion* moves, i.e.
the plain captures, and a promotion — queen promotions included — is never
delta-pruned. -/
theorem C8_quiesce_skip_rules (E : Env) (pos : Nat) (eval alpha : Int) (move : Nat) :
    (E.movePromo move ≠ 0 → E.movePromo move < QUEEN WHITE →
      qSkip E pos eval alpha move = true) ∧
    (E.movePromo move ≠ 0 → ¬E.movePromo move < QUEEN WHITE →
      qSkip E pos eval alpha move = false) ∧
    (E.movePromo move = 0 →
      (qSkip E pos eval alpha move = true ↔
        eval + DELTA_CUTOFF + E.STATIC_MATERIAL_VALUE (PIECE_TYPE
          (if E.moveEP move then PAWN (E.xside pos)
           else E.squares pos (E.moveEnd move))) < alpha)) := by
  refine ⟨fun h1 h2 => ?_, fun h1 h2 => ?_, fun h0 => ?_⟩
  · simp [qSkip, if_pos h1, h2]
  · simp [qSkip, if_pos h1, h2]
  · simp [qSkip, h0]

theorem C8_quiesce_skip_rules_witness :
    qSkip { Ew with movePromo := fun _ => 2 } 0 0 0 3 = true ∧
    qSkip E8 0 (-1000) 5000 3 = false ∧
    qSkip Ew 0 (-1000) 5000 3 = true := by
  refine ⟨(C8_quiesce_skip_rules { Ew with movePromo := fun _ => 2 } 0 0 0 3).1
      (by decide) (by decide),
    (C8_quiesce_skip_rules E8 0 (-1000) 5000 3).2.1 (by decide) (by decide),
    ((C8_quiesce_skip_rules Ew 0 (-1000) 5000 3).2.2 rfl).mpr (by decide)⟩

/-! ## The aspiration window driver (search.c lines 88–108) -/
/-- C6 counterexample: at depth 2 (< 5) with previous score 50 the initial
window is `(50 − CHECKMATE, CHECKMATE)`, not the claimed unbounded
`(−CHECKMATE, CHECKMATE)`: the code computes
`max(score − δ, −CHECKMATE)` with `δ = CHECKMATE`, which for a positive
score stays above `−CHECKMATE`. -/
theorem C6_counterexample :
    (2 : Nat) ≥ 2 ∧ (2 : Nat) < 5 ∧
    aspirationInit 50 2 = (50 - CHECKMATE, CHECKMATE) ∧
    aspirationInit 50 2 ≠ (-CHECKMATE, CHECKMATE) := by
  refine ⟨by decide, by decide, by decide, by decide⟩

/-- C6 amended: iterations at depth ≥ 2 open the window as
`[max(score − δ, −CHECKMATE), min(score + δ, CHECKMATE)]` with `δ = 10` for
depth ≥ 5 and `δ = CHECKMATE` below depth 5 (so the window is
`[score − 10, score + 10]` exactly whenever the previous score is within
MATE_BOUND and depth ≥ 5); a fail-low sets `beta = (alpha + beta) / 2`
(C truncating division) and then `alpha = max(alpha − δ, −CHECKMATE)`; a
fail-high sets `beta = min(beta + δ, CHECKMATE)`; after each widening δ
grows to `δ + δ/2 = ⌊1.5·δ⌋`; and the widening loop returns as soon as the
stop flag is seen or the score falls strictly inside the window. -/
theorem C6_aspiration_window (E : Env) (pos : Nat) (depth : Nat)
    (nfuel w : Nat) (score delta alpha beta s : Int) (σ : SD) :
    (depth ≥ 5 → |score| ≤ MATE_BOUND →
      aspirationInit score depth = (score - 10, score + 10)) ∧
    (depth < 5 → aspirationInit score depth =
      (max (score - CHECKMATE) (-CHECKMATE), min (score + CHECKMATE) CHECKMATE)) ∧
    (alpha - delta ≥ -CHECKMATE →
      aspirationFailLow alpha beta delta = (alpha - delta, (alpha + beta).tdiv 2)) ∧
    (beta + delta ≤ CHECKMATE → aspirationFailHigh beta delta = beta + delta) ∧
    (0 ≤ delta → deltaGrow delta = (3 * delta).tdiv 2) ∧
    (σ.stopped = true →
      aspWiden E pos depth nfuel (w + 1) delta alpha beta s σ = (s, σ)) ∧
    (σ.stopped = false →
      alpha < (negamax E alpha beta (depth : Int) 0 pos σ nfuel).1 →
      (negamax E alpha beta (depth : Int) 0 pos σ nfuel).1 < beta →
      aspWiden E pos depth nfuel (w + 1) delta alpha beta s σ =
        negamax E alpha beta (depth : Int) 0 pos σ nfuel) := by
  refine ⟨fun h5 hsc => ?_, fun h5 => ?_, fun hcl => ?_, fun hcl => ?_, fun hd => ?_,
    fun hst => ?_, fun hst hlo hhi => ?_⟩
  · rw [abs_le] at hsc
    simp only [aspirationInit, aspirationDelta, if_pos h5, CHECKMATE, MATE_BOUND] at *
    rw [max_eq_left (by omega), min_eq_left (by omega)]
  · simp only [aspirationInit, aspirationDelta, if_neg (by omega : ¬ depth ≥ 5)]
  · simp only [aspirationFailLow, max_eq_left hcl]
  · simp only [aspirationFailHigh, min_eq_left hcl]
  · simp only [deltaGrow]
    rw [Int.tdiv_eq_ediv hd (by omega), Int.tdiv_eq_ediv (by omega) (by omega)]
    omega
  · simp only [aspWiden, hst, if_pos rfl, if_true]
  · have h1 : ¬((negamax E alpha beta (depth : Int) 0 pos σ nfuel).1 ≤ alpha) := by omega
    have h2 : ¬((negamax E alpha beta (depth : Int) 0 pos σ nfuel).1 ≥ beta) := by omega
    simp only [aspWiden, hst, if_neg h1, if_neg h2]
    simp

/-- C7 counterexample: a negamax node entered at ply 1 with window
(0, 32767) finds a mate score of 32765.  Mate-distance pruning clamps beta
to 32765 before the move loop, so the node stores a LOWER bound even though
its best score 32765 is strictly below the beta at entry (32767) and
strictly above a0 = 0 — where the claim, read against the window at entry,
demands EXACT. -/
theorem C7_counterexample :
    (negamax Ew 0 32767 1 1 0 σc7 10).1 = 32765 ∧
    TTFlag (ttProbeT Ew (negamax Ew 0 32767 1 1 0 σc7 10).2 0) = TT_LOWER ∧
    (32765 : Int) < 32767 ∧ (0 : Int) < 32765 := by
  refine ⟨by decide, by decide, by decide, by decide⟩

/-- C7 amended: the bound written by negamax's TT store is computed against
`a0` (alpha at entry) and the *mate-distance-clamped* beta, by `flagOf`:
LOWER exactly when the best score reaches that clamped beta, UPPER exactly
when it is below the clamped beta and at most a0, and EXACT exactly when it
lies strictly between a0 and the clamped beta. -/
theorem C7_tt_bound_kind (s beta a0 : Int) :
    (flagOf s beta a0 = TT_LOWER ↔ s ≥ beta) ∧
    (flagOf s beta a0 = TT_UPPER ↔ (s < beta ∧ s ≤ a0)) ∧
    (flagOf s beta a0 = TT_EXACT ↔ (a0 < s ∧ s < beta)) := by
  simp only [flagOf, TT_LOWER, TT_UPPER, TT_EXACT]
  split_ifs <;> refine ⟨⟨fun h => by omega, fun h => by omega⟩,
    ⟨fun h => by omega, fun h => by omega⟩, ⟨fun h => by omega, fun h => by omega⟩⟩

theorem SD.setMove_table (σ : SD) (p m : Nat) : (σ.setMove p m).table = σ.table := rfl

theorem SD.setEval_table (σ : SD) (p : Nat) (v : Int) : (σ.setEval p v).table = σ.table := rfl

theorem SD.setSkip_table (σ : SD) (p m : Nat) : (σ.setSkip p m).table = σ.table := rfl

theorem communicate_stopped_true (E : Env) (σ : SD) (h : σ.stopped = true) :
    (communicate E σ).stopped = true := by
  simp only [communicate]
  split_ifs <;> simp [h]

/-- The quiescence loop never writes the transposition table. -/
theorem qLoop_table (E : Env) (child : Int → Int → Nat → Nat → SD → Int × SD)
    (beta : Int) (p : Nat) (pos : Nat) (eval : Int)
    (hc : ∀ a b q ps σ', (child a b q ps σ').2.table = σ'.table) :
    ∀ n rem alpha bestScore σ,
      (qLoopAux E child beta p pos eval n rem alpha bestScore σ).2.table = σ.table := by
  intro n
  induction n with
  | zero => intro rem alpha bs σ; rfl
  | succ n ih =>
    intro rem alpha bs σ
    cases rem with
    | nil => rfl
    | cons m rest =>
      simp only [qLoopAux]
      split_ifs <;> simp [ih, hc, SD.setMove]

/-- quiesce never writes the transposition table. -/
theorem quiesce_table (E : Env) :
    ∀ fuel alpha beta p pos σ, (quiesce E alpha beta p pos σ fuel).2.table = σ.table := by
  intro fuel
  induction fuel with
  | zero => intro alpha beta p pos σ; rfl
  | succ fuel ih =>
    intro alpha beta p pos σ
    simp only [quiesce, quiesceStep]
    split
    next => rfl
    next =>
      split
      next => rfl
      next =>
        split
        next s heq => simp [communicate_table]
        next heq =>
          split_ifs <;>
            simp [qLoop_table E _ _ _ _ _ (fun a b q ps σ' => ih a b q ps σ'),
              SD.setEval, communicate_table]

/-- Once true, the stop flag stays true through the quiescence loop. -/
theorem qLoop_stopped (E : Env) (child : Int → Int → Nat → Nat → SD → Int × SD)
    (beta : Int) (p : Nat) (pos : Nat) (eval : Int)
    (hc : ∀ a b q ps σ', σ'.stopped = true → (child a b q ps σ').2.stopped = true) :
    ∀ n rem alpha bestScore σ, σ.stopped = true →
      (qLoopAux E child beta p pos eval n rem alpha bestScore σ).2.stopped = true := by
  intro n
  induction n with
  | zero => intro rem alpha bs σ h; exact h
  | succ n ih =>
    intro rem alpha bs σ h
    cases rem with
    | nil => exact h
    | cons m rest =>
      have hc1 : ∀ a b q ps σ', σ'.stopped = true → (child a b q ps σ').2.stopped = true := hc
      simp only [qLoopAux]
      split_ifs <;> first
        | exact h
        | (apply ih; exact h)
        | (apply hc1; exact h)
        | (apply ih
           exact hc1 _ _ _ _ _ h)

/-- Once true, the stop flag stays true through quiesce. -/
theorem quiesce_stopped (E : Env) :
    ∀ fuel alpha beta p pos σ, σ.stopped = true →
      (quiesce E alpha beta p pos σ fuel).2.stopped = true := by
  intro fuel
  induction fuel with
  | zero => intro alpha beta p pos σ h; exact h
  | succ fuel ih =>
    intro alpha beta p pos σ h
    have hσ1 : (communicate E
        { σ with nodes := σ.nodes + 1, seldepth := max σ.seldepth p }).stopped = true :=
      communicate_stopped_true E _ h
    simp only [quiesce, quiesceStep]
    split
    next => exact h
    next =>
      split
      next => exact h
      next =>
        split
        next s heq => exact hσ1
        next heq =>
          split_ifs <;> first
            | exact hσ1
            | exact qLoop_stopped E _ _ _ _ _ (fun a b q ps σ' hh => ih a b q ps σ' hh)
                _ _ _ _ _ hσ1

theorem selectTop_fst_mem (m : Nat × Int) (l : List (Nat × Int)) :
    (selectTop m l).1 ∈ m :: l := by
  induction l generalizing m with
  | nil => simp [selectTop]
  | cons x xs ih =>
    simp only [selectTop]
    split
    · rcases List.mem_cons.1 (ih x) with h | h
      · simp [h]
      · simp only [List.mem_cons]
        tauto
    · rcases List.mem_cons.1 (ih m) with h | h
      · simp [h]
      · simp only [List.mem_cons]
        tauto

theorem selectTop_snd_mem (m : Nat × Int) (l : List (Nat × Int)) :
    ∀ x ∈ (selectTop m l).2, x ∈ m :: l := by
  induction l generalizing m with
  | nil => simp [selectTop]
  | cons y ys ih =>
    simp only [selectTop]
    split
    · intro x hx
      rcases List.mem_cons.1 hx with h | h
      · simp [h]
      · have := ih y x h
        simp only [List.mem_cons] at this ⊢
        tauto
    · intro x hx
      rcases List.mem_cons.1 hx with h | h
      · simp [h]
      · have := ih m x h
        simp only [List.mem_cons] at this ⊢
        tauto

theorem SD.setMove_stopped (σ : SD) (p m : Nat) : (σ.setMove p m).stopped = σ.stopped := rfl

theorem SD.setEval_stopped (σ : SD) (p : Nat) (v : Int) :
    (σ.setEval p v).stopped = σ.stopped := rfl

theorem SD.setSkip_stopped (σ : SD) (p m : Nat) : (σ.setSkip p m).stopped = σ.stopped := rfl

theorem ite_snd_stopped {C : Prop} [Decidable C] {x y : Int × SD}
    (hx : x.2.stopped = true) (hy : y.2.stopped = true) :
    (if C then x else y).2.stopped = true := by
  split <;> assumption

theorem ite_snd_table {C : Prop} [Decidable C] {x y : Int × SD} {t : Nat → List Slot}
    (hx : x.2.table = t) (hy : y.2.table = t) :
    (if C then x else y).2.table = t := by
  split <;> assumption

/-- Once the stop flag is set, the singular probe keeps it set and leaves
the table alone, whatever the child search. -/
theorem singularStep_stopped (child : Int → Int → Int → Nat → Nat → SD → Int × SD)
    (c : MLCtx) (move : Nat) (σ : SD)
    (hcs : ∀ a b d q ps σ', σ'.stopped = true → (child a b d q ps σ').2.stopped = true)
    (hct : ∀ a b d q ps σ', σ'.stopped = true → (child a b d q ps σ').2.table = σ'.table)
    (h : σ.stopped = true) :
    (∀ a, singularStep child c move σ = .inl a → a.2.stopped = true ∧ a.2.table = σ.table) ∧
    (∀ se, singularStep child c move σ = .inr se →
      se.2.stopped = true ∧ se.2.table = σ.table) := by
  by_cases hcnd : c.depth ≥ 8 ∧ c.skipMove = 0 ∧ ¬c.isRoot = true ∧ move = TTMove c.ttValue ∧
      TTDepth c.ttValue ≥ c.depth - 3 ∧ |TTScore c.ttValue c.p| < MATE_BOUND ∧
      TTFlag c.ttValue = TT_LOWER
  · have hstop2 : ((child (max (TTScore c.ttValue c.p - c.depth * 2) (-CHECKMATE) - 1)
        (max (TTScore c.ttValue c.p - c.depth * 2) (-CHECKMATE)) (c.depth.tdiv 2 - 1)
        c.p c.pos (σ.setSkip c.p move)).2.setSkip c.p NULL_MOVE).stopped = true := by
      rw [SD.setSkip_stopped]
      exact hcs _ _ _ _ _ _ h
    have htab2 : ((child (max (TTScore c.ttValue c.p - c.depth * 2) (-CHECKMATE) - 1)
        (max (TTScore c.ttValue c.p - c.depth * 2) (-CHECKMATE)) (c.depth.tdiv 2 - 1)
        c.p c.pos (σ.setSkip c.p move)).2.setSkip c.p NULL_MOVE).table = σ.table := by
      rw [SD.setSkip_table]
      exact hct _ _ _ _ _ _ h
    simp only [singularStep, if_pos hcnd]
    constructor
    · intro a heq
      split_ifs at heq <;> cases heq
      all_goals exact ⟨hstop2, htab2⟩
    · intro se heq
      split_ifs at heq <;> cases heq
      all_goals exact ⟨hstop2, htab2⟩
  · simp only [singularStep, if_neg hcnd]
    constructor
    · intro a heq
      cases heq
    · intro se heq
      cases heq
      exact ⟨h, rfl⟩

/-- Once the stop flag is set, the re-search ladder keeps it set. -/
theorem searchLadder_stopped (E : Env) (child : Int → Int → Int → Nat → Nat → SD → Int × SD)
    (c : MLCtx) (se tactical : Bool) (mscore : Int) (numMoves1 : Nat)
    (alpha : Int) (pos1 : Nat) (σ3 : SD)
    (hcs : ∀ a b d q ps σ', σ'.stopped = true → (child a b d q ps σ').2.stopped = true)
    (h : σ3.stopped = true) :
    (searchLadder E child c se tactical mscore numMoves1 alpha pos1 σ3).2.stopped = true := by
  simp only [searchLadder, ladderTail, negPair]
  exact ite_snd_stopped
    (hcs _ _ _ _ _ _ (ite_snd_stopped (hcs _ _ _ _ _ _ (ite_snd_stopped (hcs _ _ _ _ _ _ h) h))
      (ite_snd_stopped (hcs _ _ _ _ _ _ h) h)))
    (ite_snd_stopped (hcs _ _ _ _ _ _ (ite_snd_stopped (hcs _ _ _ _ _ _ h) h))
      (ite_snd_stopped (hcs _ _ _ _ _ _ h) h))

/-- Once the stop flag is set, the re-search ladder leaves the table alone. -/
theorem searchLadder_table (E : Env) (child : Int → Int → Int → Nat → Nat → SD → Int × SD)
    (c : MLCtx) (se tactical : Bool) (mscore : Int) (numMoves1 : Nat)
    (alpha : Int) (pos1 : Nat) (σ3 : SD)
    (hcs : ∀ a b d q ps σ', σ'.stopped = true → (child a b d q ps σ').2.stopped = true)
    (hct : ∀ a b d q ps σ', σ'.stopped = true → (child a b d q ps σ').2.table = σ'.table)
    (h : σ3.stopped = true) :
    (searchLadder E child c se tactical mscore numMoves1 alpha pos1 σ3).2.table = σ3.table := by
  simp only [searchLadder, ladderTail, negPair]
  apply ite_snd_table
  · refine (hct _ _ _ _ _ _ ?_).trans ?_
    · apply ite_snd_stopped
      · refine hcs _ _ _ _ _ _ ?_
        apply ite_snd_stopped
        · exact hcs _ _ _ _ _ _ h
        · exact h
      · apply ite_snd_stopped
        · exact hcs _ _ _ _ _ _ h
        · exact h
    · apply ite_snd_table
      · refine (hct _ _ _ _ _ _ ?_).trans ?_
        · apply ite_snd_stopped
          · exact hcs _ _ _ _ _ _ h
          · exact h
        · apply ite_snd_table
          · exact hct _ _ _ _ _ _ h
          · rfl
      · apply ite_snd_table
        · exact hct _ _ _ _ _ _ h
        · rfl
  · apply ite_snd_table
    · refine (hct _ _ _ _ _ _ ?_).trans ?_
      · apply ite_snd_stopped
        · exact hcs _ _ _ _ _ _ h
        · exact h
      · apply ite_snd_table
        · exact hct _ _ _ _ _ _ h
        · rfl
    · apply ite_snd_table
      · exact hct _ _ _ _ _ _ h
      · rfl

/-- Once the stop flag is set, the negamax move loop keeps it set and leaves
the table alone. -/
theorem mloop_stopped (E : Env) (child : Int → Int → Int → Nat → Nat → SD → Int × SD)
    (c : MLCtx)
    (hcs : ∀ a b d q ps σ', σ'.stopped = true → (child a b d q ps σ').2.stopped = true)
    (hct : ∀ a b d q ps σ', σ'.stopped = true → (child a b d q ps σ').2.table = σ'.table) :
    ∀ n rem alpha bestScore bestMove numMoves σ out,
      moveLoopAux E child c n rem alpha bestScore bestMove numMoves σ = out →
      σ.stopped = true →
      (outSD out).stopped = true ∧ (outSD out).table = σ.table := by
  intro n
  induction n with
  | zero =>
    intro rem alpha bs bm nm σ out heq h
    cases heq
    exact ⟨h, rfl⟩
  | succ n ih =>
    intro rem alpha bs bm nm σ out heq h
    cases rem with
    | nil =>
      cases heq
      exact ⟨h, rfl⟩
    | cons m rest =>
      simp only [moveLoopAux] at heq
      split at heq
      next => exact ih _ _ _ _ _ _ _ heq h
      next =>
        split at heq
        next => exact ih _ _ _ _ _ _ _ heq h
        next =>
          split at heq
          next => exact ih _ _ _ _ _ _ _ heq h
          next =>
            split at heq
            next a heqs =>
              cases heq
              exact (singularStep_stopped child c _ σ hcs hct h).1 a heqs
            next se heqs =>
              obtain ⟨hs, ht⟩ := (singularStep_stopped child c _ σ hcs hct h).2 se heqs
              have h3 : (se.2.setMove c.p (selectTop m rest).1.1).stopped = true := hs
              rw [if_pos (searchLadder_stopped E child c _ _ _ _ _ _ _ hcs h3)] at heq
              cases heq
              refine ⟨searchLadder_stopped E child c _ _ _ _ _ _ _ hcs h3, ?_⟩
              exact (searchLadder_table E child c _ _ _ _ _ _ _ hcs hct h3).trans ht

/-- Once the stop flag is set, the negamax move loop only falls through to
the TT store (the `.done` outcome) on an empty move list or exhausted
counter: with a null skip move and non-null generated moves, the first
iteration either returns through the post-unmake stop check or through the
singular multi-cut, both `.ret`. -/
theorem mloop_stopped_done (E : Env) (child : Int → Int → Int → Nat → Nat → SD → Int × SD)
    (c : MLCtx)
    (hcs : ∀ a b d q ps σ', σ'.stopped = true → (child a b d q ps σ').2.stopped = true)
    (hct : ∀ a b d q ps σ', σ'.stopped = true → (child a b d q ps σ').2.table = σ'.table) :
    ∀ n rem alpha bestScore bestMove numMoves σ bs' bm' σ',
      moveLoopAux E child c n rem alpha bestScore bestMove numMoves σ = .done bs' bm' σ' →
      σ.stopped = true → bestScore ≤ -MATE_BOUND → c.skipMove = 0 →
      (∀ x ∈ rem, x.1 ≠ 0) →
      rem = [] ∨ n = 0 := by
  intro n rem alpha bs bm nm σ bs' bm' σ' heq h hbs hskip hnz
  cases n with
  | zero => exact Or.inr rfl
  | succ n =>
    cases rem with
    | nil => exact Or.inl rfl
    | cons m rest =>
      exfalso
      have hmove : (selectTop m rest).1.1 ≠ 0 := hnz _ (selectTop_fst_mem m rest)
      simp only [moveLoopAux] at heq
      split at heq
      next hskipm =>
        rw [hskip] at hskipm
        exact hmove hskipm
      next =>
        split at heq
        next hlmp =>
          have := hlmp.2.1
          simp only [MATE_BOUND] at this hbs
          omega
        next =>
          split at heq
          next hsee =>
            have := hsee.2.1
            simp only [MATE_BOUND] at this hbs
            omega
          next =>
            split at heq
            next a heqs => cases heq
            next se heqs =>
              obtain ⟨hs, ht⟩ := (singularStep_stopped child c _ σ hcs hct h).2 se heqs
              have h3 : (se.2.setMove c.p (selectTop m rest).1.1).stopped = true := hs
              rw [if_pos (searchLadder_stopped E child c _ _ _ _ _ _ _ hcs h3)] at heq
              cases heq

/-- Once the stop flag is set, the checkmate/TT-store tail of a negamax
node keeps it set and never writes the table (the `.done` fall-through that
would store is unreachable then). -/
theorem negamaxCore_stopped (E : Env) (child : Int → Int → Int → Nat → Nat → SD → Int × SD)
    (c : MLCtx) (alpha a0 : Int) (σ : SD)
    (hcs : ∀ a b d q ps σ', σ'.stopped = true → (child a b d q ps σ').2.stopped = true)
    (hct : ∀ a b d q ps σ', σ'.stopped = true → (child a b d q ps σ').2.table = σ'.table)
    (hnz : ∀ x ∈ E.generateMoves c.pos, x.1 ≠ 0)
    (h : σ.stopped = true) :
    (negamaxCore E child c alpha a0 σ).2.stopped = true ∧
    (negamaxCore E child c alpha a0 σ).2.table = σ.table := by
  simp only [negamaxCore]
  cases hout : moveLoopAux E child c (E.generateMoves c.pos).length (E.generateMoves c.pos)
      alpha (-CHECKMATE) 0 0 σ with
  | ret s σ'' =>
    obtain ⟨ls, lt⟩ := mloop_stopped E child c hcs hct _ _ _ _ _ _ _ _ hout h
    simp only [hout]
    exact ⟨ls, lt⟩
  | done bs2 bm2 σ'' =>
    obtain ⟨ls, lt⟩ := mloop_stopped E child c hcs hct _ _ _ _ _ _ _ _ hout h
    simp only [hout]
    by_cases hml : E.generateMoves c.pos = []
    · rw [if_pos hml]
      exact ⟨ls, lt⟩
    · rw [if_neg hml]
      by_cases hsk : c.skipMove = 0
      · rcases mloop_stopped_done E child c hcs hct _ _ _ _ _ _ _ _ _ _ hout h
            (by decide) hsk hnz with hc | hc
        · exact absurd hc hml
        · exact absurd (List.length_eq_zero.mp hc) hml
      · rw [if_neg hsk]
        exact ⟨ls, lt⟩

/-- Once the stop flag is set, the negamax preamble keeps it set and leaves
the table alone, in both its early-exit and fall-through outcomes. -/
theorem negamaxPre_stopped (E : Env) (childQ : Int → Int → Nat → Nat → SD → Int × SD)
    (alpha beta depth : Int) (p : Nat) (pos : Nat) (σ : SD)
    (hqs : ∀ a b q ps σ', σ'.stopped = true → (childQ a b q ps σ').2.stopped = true)
    (hqt : ∀ a b q ps σ', (childQ a b q ps σ').2.table = σ'.table)
    (h : σ.stopped = true) :
    (∀ r, negamaxPre E childQ alpha beta depth p pos σ = .inl r →
      r.2.stopped = true ∧ r.2.table = σ.table) ∧
    (∀ c al a0 pe σx,
      negamaxPre E childQ alpha beta depth p pos σ = .inr (c, al, a0, pe, σx) →
      σx.stopped = true ∧ σx.table = σ.table ∧ c.pos = pos) := by
  constructor
  · intro r heq
    simp only [negamaxPre] at heq
    repeat' split at heq
    all_goals cases heq
    all_goals first
      | exact ⟨h, rfl⟩
      | exact ⟨communicate_stopped_true E _ h, communicate_table E _⟩
      | exact ⟨hqs _ _ _ _ _ h, hqt _ _ _ _ _⟩
  · intro c al a0 pe σx heq
    simp only [negamaxPre] at heq
    repeat' split at heq
    all_goals cases heq
    exact ⟨communicate_stopped_true E _ h, communicate_table E _, rfl⟩

/-- Once the stop flag is set, a negamax frame keeps it set and never
writes the transposition table, provided generated moves are non-null. -/
theorem negamax_stopped (E : Env)
    (hNZ : ∀ pos x, x ∈ E.generateMoves pos → x.1 ≠ 0) :
    ∀ fuel alpha beta depth p pos σ, σ.stopped = true →
      (negamax E alpha beta depth p pos σ fuel).2.stopped = true ∧
      (negamax E alpha beta depth p pos σ fuel).2.table = σ.table := by
  intro fuel
  induction fuel with
  | zero => intro alpha beta depth p pos σ h; exact ⟨h, rfl⟩
  | succ fuel ih =>
    intro alpha beta depth p pos σ h
    have hcs' : ∀ a b d q ps σ', σ'.stopped = true →
        (negamax E a b d q ps σ' fuel).2.stopped = true :=
      fun a b d q ps σ' h' => (ih a b d q ps σ' h').1
    have hct' : ∀ a b d q ps σ', σ'.stopped = true →
        (negamax E a b d q ps σ' fuel).2.table = σ'.table :=
      fun a b d q ps σ' h' => (ih a b d q ps σ' h').2
    obtain ⟨hinl, hinr⟩ := negamaxPre_stopped E
      (fun a b q ps σ' => quiesce E a b q ps σ' fuel) alpha beta depth p pos σ
      (fun a b q ps σ' h' => quiesce_stopped E fuel a b q ps σ' h')
      (fun a b q ps σ' => quiesce_table E fuel a b q ps σ') h
    rw [negamax_succ]
    simp only [negamaxStep]
    cases hpre : negamaxPre E (fun a b q ps σ' => quiesce E a b q ps σ' fuel)
        alpha beta depth p pos σ with
    | inl r =>
      simp only [hpre]
      exact hinl r hpre
    | inr tup =>
      obtain ⟨c, al, a0, pe, σx⟩ := tup
      obtain ⟨hxs, hxt, hposeq⟩ := hinr c al a0 pe σx hpre
      simp only [hpre]
      split
      next hnm =>
        split
        next hstop =>
          refine ⟨hstop, ?_⟩
          refine ((ih _ _ _ _ _ _ ?_).2).trans hxt
          exact hxs
        next hnstop =>
          refine absurd ?_ hnstop
          refine (ih _ _ _ _ _ _ ?_).1
          exact hxs
      next =>
        refine ⟨(negamaxCore_stopped E _ _ _ _ _ hcs' hct' ?_ ?_).1,
          ((negamaxCore_stopped E _ _ _ _ _ hcs' hct' ?_ ?_).2).trans hxt⟩
        · rw [hposeq]
          exact fun x hx => hNZ pos x hx
        · exact hxs
        · rw [hposeq]
          exact fun x hx => hNZ pos x hx
        · exact hxs

/-- C4 counterexample: a negamax frame entered with the stop flag already
set does not return 0 — here it takes a transposition-table cutoff and
returns the stored score 42. The stop check (search.c lines 280–281) only
runs after a child of the move loop returns, so every early exit before
the move loop ignores the flag. -/
theorem C4_counterexample :
    σstop.stopped = true ∧ (negamax Ew 0 1 3 1 0 σstop 5).1 = 42 :=
  ⟨rfl, by decide⟩

/-- C4 corrected: once the stop flag is set it stays set, and from that
point no frame of negamax or quiesce writes to the transposition table
(quiesce never writes it at all); but a stopped frame need not return 0 —
it may still take an early exit such as a TT cutoff with a nonzero score.
The non-null-move hypothesis mirrors the real move generator, which never
emits the null move. -/
theorem C4_stopped_no_tt_write (E : Env)
    (hNZ : ∀ pos x, x ∈ E.generateMoves pos → x.1 ≠ 0)
    (fuel : Nat) (alpha beta depth : Int) (p pos : Nat) (σ : SD)
    (h : σ.stopped = true) :
    (negamax E alpha beta depth p pos σ fuel).2.stopped = true ∧
    (negamax E alpha beta depth p pos σ fuel).2.table = σ.table ∧
    (quiesce E alpha beta p pos σ fuel).2.stopped = true ∧
    (quiesce E alpha beta p pos σ fuel).2.table = σ.table :=
  ⟨(negamax_stopped E hNZ fuel alpha beta depth p pos σ h).1,
   (negamax_stopped E hNZ fuel alpha beta depth p pos σ h).2,
   quiesce_stopped E fuel alpha beta p pos σ h,
   quiesce_table E fuel alpha beta p pos σ⟩

theorem C4_stopped_no_tt_write_witness :
    (negamax Ew 0 1 3 1 0 σstop 5).2.stopped = true ∧
    (negamax Ew 0 1 3 1 0 σstop 5).2.table = σstop.table ∧
    (quiesce Ew 0 1 1 0 σstop 5).2.stopped = true ∧
    (quiesce Ew 0 1 1 0 σstop 5).2.table = σstop.table :=
  C4_stopped_no_tt_write Ew
    (fun pos x hx => by
      have hx7 : x = (7, 0) := List.mem_singleton.mp hx
      rw [hx7]; decide)
    5 0 1 3 1 0 σstop rfl

theorem C6_aspiration_window_witness :
    aspirationInit 50 6 = (50 - 10, 50 + 10) ∧
    aspirationInit 50 4 =
      (max (50 - CHECKMATE) (-CHECKMATE), min (50 + CHECKMATE) CHECKMATE) ∧
    aspirationFailLow 0 10 5 = (0 - 5, ((0 : Int) + 10).tdiv 2) ∧
    aspirationFailHigh 10 5 = 10 + 5 ∧
    deltaGrow 5 = ((3 : Int) * 5).tdiv 2 ∧
    aspWiden Ew 0 6 3 1 5 0 10 7 (initSD true) = (7, initSD true) ∧
    aspWiden Ew 0 1 4 1 5 (-100) 100 7 (initSD false) =
      negamax Ew (-100) 100 ((1 : Nat) : Int) 0 0 (initSD false) 4 := by
  have h6 := C6_aspiration_window Ew 0 6 3 0 50 5 0 10 7 (initSD true)
  have h4 := C6_aspiration_window Ew 0 4 3 0 50 5 0 10 7 (initSD true)
  have h1 := C6_aspiration_window Ew 0 1 4 0 50 5 (-100) 100 7 (initSD false)
  exact ⟨h6.1 (by decide) (by decide), h4.2.1 (by decide),
    h6.2.2.1 (by decide), h6.2.2.2.1 (by decide), h6.2.2.2.2.1 (by decide),
    h6.2.2.2.2.2.1 rfl,
    h1.2.2.2.2.2.2 rfl (by decide) (by decide)⟩

/-! ## Score bounds: transposition-table lemmas -/
theorem TTProbe_mem (bucket : List Slot) (hash : Nat) (b : TTBody)
    (h : TTProbe bucket hash = some b) : ∃ sl ∈ bucket, sl.2 = some b := by
  induction bucket with
  | nil => cases h
  | cons s rest ih =>
    simp only [TTProbe] at h
    split at h
    · exact ⟨s, List.mem_cons_self s rest, h⟩
    · obtain ⟨sl, hm, he⟩ := ih h
      exact ⟨sl, List.mem_cons_of_mem s hm, he⟩

theorem ttProbeT_entryOK (E : Env) (σ : SD) (pos : Nat) (b : TTBody)
    (ht : tableOK σ.table) (h : ttProbeT E σ pos = some b) : entryOK b := by
  obtain ⟨sl, hm, he⟩ := TTProbe_mem _ _ _ h
  exact ht _ sl hm b he

theorem TTScore_ok (b : TTBody) (p : Nat) (hb : entryOK b) (hp : p ≤ 2048) :
    -CHECKMATE + p ≤ TTScore (some b) p ∧ TTScore (some b) p ≤ CHECKMATE - p := by
  obtain ⟨h1, h2, _, _⟩ := hb
  simp only [TTScore, ttRaw, Option.map_some', Option.getD_some, CHECKMATE, MATE_BOUND] at *
  split_ifs <;> omega

theorem TTEval_ok (b : TTBody) (hb : entryOK b) :
    -MATE_BOUND ≤ TTEval (some b) ∧ TTEval (some b) ≤ MATE_BOUND := by
  obtain ⟨_, _, h3, h4⟩ := hb
  simp only [TTEval, Option.map_some', Option.getD_some]
  exact ⟨h3, h4⟩

theorem ttCutQ_eq (v : Option TTBody) (alpha beta : Int) (p : Nat) (s : Int)
    (h : ttCutQ v alpha beta p = some s) : s = TTScore v p ∧ v.isSome = true := by
  cases v with
  | none => cases h
  | some b =>
    simp only [ttCutQ] at h
    split_ifs at h <;> cases h <;> exact ⟨rfl, rfl⟩

theorem ttCutN_eq (v : Option TTBody) (depth alpha beta : Int) (p : Nat) (s : Int)
    (h : ttCutN v depth alpha beta p = some s) : s = TTScore v p ∧ v.isSome = true := by
  simp only [ttCutN] at h
  split at h
  · exact ttCutQ_eq v alpha beta p s h
  · cases h

theorem TTPut_mem (bucket : List Slot) (hash : Nat) (depth score : Int) (flag move : Nat)
    (ply : Nat) (eval : Int) (sl : Slot)
    (h : sl ∈ (TTPut bucket hash depth score flag move ply eval).1) :
    sl ∈ bucket ∨ sl = (hash, some (TTEntry (adjustScore score ply) flag depth move eval)) := by
  simp only [TTPut] at h
  split at h
  · exact Or.inl h
  · exact List.mem_or_eq_of_mem_set h

theorem adjustScore_ok (score : Int) (ply : Nat) (hlo : -CHECKMATE + ply ≤ score)
    (hhi : score ≤ CHECKMATE - ply) :
    -CHECKMATE ≤ adjustScore score ply ∧ adjustScore score ply ≤ CHECKMATE := by
  simp only [adjustScore, CHECKMATE, MATE_BOUND] at *
  split_ifs <;> omega

theorem tableOK_ttPutT (E : Env) (t : Nat → List Slot) (hash : Nat) (depth score : Int)
    (flag move : Nat) (ply : Nat) (eval : Int) (ht : tableOK t)
    (hlo : -CHECKMATE + ply ≤ score) (hhi : score ≤ CHECKMATE - ply)
    (helo : -MATE_BOUND ≤ eval) (hehi : eval ≤ MATE_BOUND) :
    tableOK (ttPutT E t hash depth score flag move ply eval) := by
  intro i sl hm b hb
  simp only [ttPutT] at hm
  split at hm
  · rcases TTPut_mem _ _ _ _ _ _ _ _ _ hm with hin | hnew
    · exact ht _ sl hin b hb
    · rw [hnew] at hb
      cases hb
      exact ⟨(adjustScore_ok score ply hlo hhi).1, (adjustScore_ok score ply hlo hhi).2,
        helo, hehi⟩
  · exact ht _ sl hm b hb

/-! ## Score bounds: state-plumbing for the invariant -/
theorem Inv_communicate (E : Env) (σ : SD) (h : Inv σ) : Inv (communicate E σ) := by
  simp only [communicate]
  split_ifs <;> exact h

theorem Inv_setEval (σ : SD) (p : Nat) (v : Int) (h : Inv σ)
    (hv : -MATE_BOUND ≤ v ∧ v ≤ MATE_BOUND) : Inv (σ.setEval p v) := by
  refine ⟨h.1, fun q => ?_⟩
  show -MATE_BOUND ≤ (if q = p then v else σ.evals q) ∧
    (if q = p then v else σ.evals q) ≤ MATE_BOUND
  split
  · exact hv
  · exact h.2 q

theorem Inv_bump (σ : SD) (n s : Nat) (h : Inv σ) :
    Inv { σ with nodes := n, seldepth := s } := h

theorem Inv_setMove (σ : SD) (p m : Nat) (h : Inv σ) : Inv (σ.setMove p m) := h

theorem Inv_setSkip (σ : SD) (p m : Nat) (h : Inv σ) : Inv (σ.setSkip p m) := h

/-! ## Score bounds: quiescence -/
theorem eval0Of_ok (E : Env) (v : Option TTBody) (pos : Nat)
    (hE : -MATE_BOUND ≤ E.evaluate pos ∧ E.evaluate pos ≤ MATE_BOUND)
    (hv : ∀ b, v = some b → entryOK b) :
    -MATE_BOUND ≤ eval0Of E v pos ∧ eval0Of E v pos ≤ MATE_BOUND := by
  cases v with
  | none => simpa [eval0Of] using hE
  | some b =>
    have h := TTEval_ok b (hv b rfl)
    simpa [eval0Of] using h

theorem qStandPat_ok (E : Env) (v : Option TTBody) (pos : Nat) (p : Nat)
    (hE : -MATE_BOUND ≤ E.evaluate pos ∧ E.evaluate pos ≤ MATE_BOUND)
    (hv : ∀ b, v = some b → entryOK b) (hp : p ≤ 2048) :
    -CHECKMATE + (p : Int) ≤ qStandPat E v pos p ∧
      qStandPat E v pos p ≤ CHECKMATE - (p : Int) := by
  have h0 := eval0Of_ok E v pos hE hv
  by_cases hcond : v.isSome = true ∧ TTFlag v =
      (if TTScore v p > eval0Of E v pos then TT_LOWER else TT_UPPER)
  · rw [qStandPat, if_pos hcond]
    cases v with
    | none => simp at hcond
    | some b => exact TTScore_ok b p (hv b rfl) hp
  · rw [qStandPat, if_neg hcond]
    simp only [CHECKMATE, MATE_BOUND] at *
    omega

theorem qLoop_bounds (E : Env) (child : Int → Int → Nat → Nat → SD → Int × SD)
    (beta : Int) (p : Nat) (pos : Nat) (eval : Int)
    (hp : p ≤ 2048)
    (hcI : ∀ a b ps σ', Inv σ' → Inv (child a b (p + 1) ps σ').2)
    (hcLo : ∀ a b ps σ', Inv σ' →
      -CHECKMATE + ((p : Int) + 1) ≤ (child a b (p + 1) ps σ').1) :
    ∀ n ms alpha bs σ, Inv σ →
      -CHECKMATE + (p : Int) ≤ bs → bs ≤ CHECKMATE - (p : Int) →
      (-CHECKMATE + (p : Int) ≤ (qLoopAux E child beta p pos eval n ms alpha bs σ).1 ∧
        (qLoopAux E child beta p pos eval n ms alpha bs σ).1 ≤ CHECKMATE - (p : Int)) ∧
      Inv (qLoopAux E child beta p pos eval n ms alpha bs σ).2 := by
  intro n
  induction n with
  | zero => intro ms alpha bs σ hI hlo hhi; exact ⟨⟨hlo, hhi⟩, hI⟩
  | succ n ih =>
    intro ms alpha bs σ hI hlo hhi
    cases ms with
    | nil => exact ⟨⟨hlo, hhi⟩, hI⟩
    | cons m rest =>
      simp only [qLoopAux]
      have hI1 : Inv (σ.setMove p (selectTop m rest).1.1) := Inv_setMove _ _ _ hI
      have hlo2 := hcLo (-beta) (-alpha) (E.makeMove (selectTop m rest).1.1 pos)
        (σ.setMove p (selectTop m rest).1.1) hI1
      have hI2 := hcI (-beta) (-alpha) (E.makeMove (selectTop m rest).1.1 pos)
        (σ.setMove p (selectTop m rest).1.1) hI1
      split_ifs <;>
        first
          | exact ih _ _ _ _ hI hlo hhi
          | exact ⟨⟨hlo, hhi⟩, hI⟩
          | exact ⟨⟨by simp only [CHECKMATE] at *; omega,
              by simp only [CHECKMATE] at *; omega⟩, hI2⟩
          | exact ih _ _ _ _ hI2 (by simp only [CHECKMATE] at *; omega)
              (by simp only [CHECKMATE] at *; omega)

theorem quiesce_bounds (E : Env)
    (hE : ∀ q, -MATE_BOUND ≤ E.evaluate q ∧ E.evaluate q ≤ MATE_BOUND) :
    ∀ (fuel : Nat) (alpha beta : Int) (p pos : Nat) (σ : SD), Inv σ → p ≤ 2048 →
      (-CHECKMATE + (p : Int) ≤ (quiesce E alpha beta p pos σ fuel).1 ∧
        (quiesce E alpha beta p pos σ fuel).1 ≤ CHECKMATE - (p : Int)) ∧
      Inv (quiesce E alpha beta p pos σ fuel).2 := by
  intro fuel
  induction fuel with
  | zero =>
    intro alpha beta p pos σ hI hp
    refine ⟨⟨?_, ?_⟩, hI⟩ <;> (simp only [quiesce, CHECKMATE]; omega)
  | succ fuel ih =>
    intro alpha beta p pos σ hI hp
    rw [quiesce_succ]
    simp only [quiesceStep]
    split
    next =>
      refine ⟨⟨?_, ?_⟩, Inv_bump σ _ _ hI⟩ <;> (simp only [CHECKMATE]; omega)
    next =>
      split
      next =>
        have h := hE pos
        refine ⟨⟨?_, ?_⟩, Inv_bump σ _ _ hI⟩ <;>
          (simp only [CHECKMATE, MATE_BOUND] at *; omega)
      next hg =>
        have hp127 : p ≤ 127 := by simp only [MAX_DEPTH] at hg; omega
        have hIc : Inv (communicate E
            { σ with nodes := σ.nodes + 1, seldepth := max σ.seldepth p }) :=
          Inv_communicate E _ (Inv_bump σ _ _ hI)
        have hv : ∀ b, ttProbeT E (communicate E
            { σ with nodes := σ.nodes + 1, seldepth := max σ.seldepth p }) pos = some b →
            entryOK b :=
          fun b hb => ttProbeT_entryOK E _ pos b hIc.1 hb
        split
        next s hs =>
          obtain ⟨hseq, hvs⟩ := ttCutQ_eq _ _ _ _ _ hs
          cases hpr : ttProbeT E (communicate E
              { σ with nodes := σ.nodes + 1, seldepth := max σ.seldepth p }) pos with
          | none => rw [hpr] at hvs; cases hvs
          | some b =>
            rw [hpr] at hseq
            refine ⟨⟨?_, ?_⟩, hIc⟩ <;> (rw [hseq])
            · exact (TTScore_ok b p (hv b hpr) hp).1
            · exact (TTScore_ok b p (hv b hpr) hp).2
        next =>
          have hsp := qStandPat_ok E _ pos p (hE pos) hv hp
          have hIe : Inv ((communicate E
              { σ with nodes := σ.nodes + 1, seldepth := max σ.seldepth p }).setEval p
              (eval0Of E (ttProbeT E (communicate E
                { σ with nodes := σ.nodes + 1, seldepth := max σ.seldepth p }) pos) pos)) :=
            Inv_setEval _ p _ hIc (eval0Of_ok E _ pos (hE pos) hv)
          split
          next => exact ⟨hsp, hIe⟩
          next =>
            exact qLoop_bounds E (fun a b q ps σ' => quiesce E a b q ps σ' fuel)
              beta p pos _ hp
              (fun a b ps σ' h' => (ih a b (p + 1) ps σ' h' (by omega)).2)
              (fun a b ps σ' h' => by
                have h2 := (ih a b (p + 1) ps σ' h' (by omega)).1.1
                simp only [CHECKMATE] at h2 ⊢
                push_cast at h2 ⊢
                omega)
              _ _ _ _ _ hIe hsp.1 hsp.2

/-! ## Stop-flag constancy when the stop signal never fires -/
theorem communicate_stopped_const (E : Env) (σ : SD)
    (hsig : ∀ n, E.stopSignal n = false) :
    (communicate E σ).stopped = σ.stopped := by
  simp [communicate, hsig]

theorem qLoop_stopped_const (E : Env) (child : Int → Int → Nat → Nat → SD → Int × SD)
    (beta : Int) (p : Nat) (pos : Nat) (eval : Int)
    (hc : ∀ a b ps σ', (child a b (p + 1) ps σ').2.stopped = σ'.stopped) :
    ∀ n ms alpha bs σ,
      (qLoopAux E child beta p pos eval n ms alpha bs σ).2.stopped = σ.stopped := by
  intro n
  induction n with
  | zero => intro ms alpha bs σ; rfl
  | succ n ih =>
    intro ms alpha bs σ
    cases ms with
    | nil => rfl
    | cons m rest =>
      simp only [qLoopAux]
      split_ifs <;>
        first
          | exact ih _ _ _ _
          | rfl
          | exact hc _ _ _ _
          | exact (ih _ _ _ _).trans (hc _ _ _ _)

theorem quiesce_stopped_const (E : Env) (hsig : ∀ n, E.stopSignal n = false) :
    ∀ (fuel : Nat) (alpha beta : Int) (p pos : Nat) (σ : SD),
      (quiesce E alpha beta p pos σ fuel).2.stopped = σ.stopped := by
  intro fuel
  induction fuel with
  | zero => intro alpha beta p pos σ; rfl
  | succ fuel ih =>
    intro alpha beta p pos σ
    rw [quiesce_succ]
    simp only [quiesceStep]
    split
    next => rfl
    next =>
      split
      next => rfl
      next =>
        split
        next s hs => exact communicate_stopped_const E _ hsig
        next hs =>
          split
          next => exact communicate_stopped_const E _ hsig
          next =>
            exact (qLoop_stopped_const E (fun a b q ps σ' => quiesce E a b q ps σ' fuel)
              beta p pos _ (fun a b ps σ' => ih a b (p + 1) ps σ') _ _ _ _ _).trans
              (communicate_stopped_const E _ hsig)

theorem qLoop_ge (E : Env) (child : Int → Int → Nat → Nat → SD → Int × SD)
    (beta : Int) (p : Nat) (pos : Nat) (eval : Int)
    (hc : ∀ a b ps σ', (child a b (p + 1) ps σ').2.stopped = σ'.stopped) :
    ∀ n ms alpha bs σ, σ.stopped = false →
      bs ≤ (qLoopAux E child beta p pos eval n ms alpha bs σ).1 := by
  intro n
  induction n with
  | zero => intro ms alpha bs σ hσ; exact le_refl bs
  | succ n ih =>
    intro ms alpha bs σ hσ
    cases ms with
    | nil => exact le_refl bs
    | cons m rest =>
      have hf : (child (-beta) (-alpha) (p + 1)
          (E.makeMove (selectTop m rest).1.1 pos)
          (σ.setMove p (selectTop m rest).1.1)).2.stopped = false :=
        (hc _ _ _ _).trans hσ
      simp only [qLoopAux]
      split_ifs <;>
        first
          | exact ih _ _ _ _ hσ
          | exact le_refl bs
          | exact le_of_lt (by assumption)
          | exact le_trans (le_of_lt (by assumption)) (ih _ _ _ _ hf)
          | exact ih _ _ _ _ hf
          | exact absurd (by assumption) (by simp [hf])

/-! ## Skip-array plumbing -/
theorem SkipOK_refl (p : Nat) (σ : SD) : SkipOK p σ σ :=
  ⟨fun _ _ => rfl, fun _ _ h => h⟩

theorem SkipOK_trans (p : Nat) (σ1 σ2 σ3 : SD) (h1 : SkipOK p σ1 σ2)
    (h2 : SkipOK p σ2 σ3) : SkipOK p σ1 σ3 := by
  refine ⟨fun j hj => (h2.1 j hj).trans (h1.1 j hj), fun j hj hz => ?_⟩
  exact h2.2 j hj (h1.2 j hj hz)

theorem SkipOK_mono (p : Nat) (σ1 σ2 : SD) (h : SkipOK (p + 1) σ1 σ2) :
    SkipOK p σ1 σ2 := by
  refine ⟨fun j hj => h.1 j (by omega), fun j hj hz => ?_⟩
  by_cases hj1 : j = p + 1
  · rw [hj1, h.1 (p + 1) (by omega), ← hj1]
    exact hz
  · exact h.2 j (by omega) hz

theorem qLoop_skip (E : Env) (child : Int → Int → Nat → Nat → SD → Int × SD)
    (beta : Int) (p : Nat) (pos : Nat) (eval : Int)
    (hc : ∀ a b ps σ' j, (child a b (p + 1) ps σ').2.skipMove j = σ'.skipMove j) :
    ∀ n ms alpha bs σ j,
      (qLoopAux E child beta p pos eval n ms alpha bs σ).2.skipMove j = σ.skipMove j := by
  intro n
  induction n with
  | zero => intro ms alpha bs σ j; rfl
  | succ n ih =>
    intro ms alpha bs σ j
    cases ms with
    | nil => rfl
    | cons m rest =>
      simp only [qLoopAux]
      split_ifs <;>
        first
          | exact ih _ _ _ _ _
          | rfl
          | exact hc _ _ _ _ _
          | exact (ih _ _ _ _ _).trans (hc _ _ _ _ _)

theorem communicate_skip (E : Env) (σ : SD) (j : Nat) :
    (communicate E σ).skipMove j = σ.skipMove j := by
  simp only [communicate]
  split_ifs <;> rfl

theorem quiesce_skip (E : Env) :
    ∀ (fuel : Nat) (alpha beta : Int) (p pos : Nat) (σ : SD) (j : Nat),
      (quiesce E alpha beta p pos σ fuel).2.skipMove j = σ.skipMove j := by
  intro fuel
  induction fuel with
  | zero => intro alpha beta p pos σ j; rfl
  | succ fuel ih =>
    intro alpha beta p pos σ j
    rw [quiesce_succ]
    simp only [quiesceStep]
    split
    next => rfl
    next =>
      split
      next => rfl
      next =>
        split
        next s hs => exact communicate_skip E _ j
        next hs =>
          split
          next => exact communicate_skip E _ j
          next =>
            exact (qLoop_skip E (fun a b q ps σ' => quiesce E a b q ps σ' fuel)
              beta p pos _ (fun a b ps σ' i => ih a b (p + 1) ps σ' i)
              _ _ _ _ _ j).trans (communicate_skip E _ j)

/-! ## Score bounds: the negamax preamble -/
theorem SD.setSkip_skip (σ : SD) (p m j : Nat) :
    (σ.setSkip p m).skipMove j = if j = p then m else σ.skipMove j := rfl

theorem SD.setEval_skip (σ : SD) (p : Nat) (v : Int) (j : Nat) :
    (σ.setEval p v).skipMove j = σ.skipMove j := rfl

theorem SD.setMove_skip (σ : SD) (p m j : Nat) :
    (σ.setMove p m).skipMove j = σ.skipMove j := rfl

theorem ttLookup_entryOK (E : Env) (skip : Nat) (σ : SD) (pos : Nat) (b : TTBody)
    (ht : tableOK σ.table) (h : ttLookup E skip σ pos = some b) : entryOK b := by
  simp only [ttLookup] at h
  split at h
  · cases h
  · exact ttProbeT_entryOK E σ pos b ht h

theorem pruneEvalOf_lb (v : Option TTBody) (depth : Int) (p : Nat) (eval0 : Int)
    (hv : ∀ b, v = some b → entryOK b) (hp : p ≤ 2048) (he : -MATE_BOUND ≤ eval0) :
    -CHECKMATE + (p : Int) ≤ pruneEvalOf v depth p eval0 := by
  by_cases hcond : v.isSome = true ∧ TTDepth v ≥ depth ∧
      TTFlag v = (if TTScore v p > eval0 then TT_LOWER else TT_UPPER)
  · rw [pruneEvalOf, if_pos hcond]
    cases v with
    | none => simp at hcond
    | some b => exact (TTScore_ok b p (hv b rfl) hp).1
  · rw [pruneEvalOf, if_neg hcond]
    simp only [CHECKMATE, MATE_BOUND] at *
    omega

theorem clampAlpha_zero (alpha : Int) (p : Nat) (h : p = 0) :
    clampAlpha (decide (p = 0)) alpha p = alpha := by
  subst h; rfl

theorem clampAlpha_pos (alpha : Int) (p : Nat) (h : ¬p = 0) :
    clampAlpha (decide (p = 0)) alpha p = max alpha (-CHECKMATE + p) := by
  simp [clampAlpha, h]

theorem clampBeta_zero (beta : Int) (p : Nat) (h : p = 0) :
    clampBeta (decide (p = 0)) beta p = beta := by
  subst h; rfl

theorem clampBeta_pos (beta : Int) (p : Nat) (h : ¬p = 0) :
    clampBeta (decide (p = 0)) beta p = min beta (CHECKMATE - p - 1) := by
  simp [clampBeta, h]

theorem negamaxPre_ok (E : Env) (childQ : Int → Int → Nat → Nat → SD → Int × SD)
    (alpha beta depth : Int) (p pos : Nat) (σ : SD)
    (hE : ∀ q, -MATE_BOUND ≤ E.evaluate q ∧ E.evaluate q ≤ MATE_BOUND)
    (hq : (-CHECKMATE + (p : Int) ≤ (childQ alpha beta p pos σ).1 ∧
        (childQ alpha beta p pos σ).1 ≤ CHECKMATE - (p : Int)) ∧
      Inv (childQ alpha beta p pos σ).2)
    (hqskip : ∀ j, (childQ alpha beta p pos σ).2.skipMove j = σ.skipMove j)
    (hI : Inv σ) (hp : p ≤ 2048) (hα : alpha ≤ CHECKMATE - (p : Int))
    (hroot : p = 0 → -CHECKMATE ≤ alpha ∧ alpha < beta ∧ beta ≤ CHECKMATE) :
    (∀ r, negamaxPre E childQ alpha beta depth p pos σ = .inl r →
      (-CHECKMATE + (p : Int) ≤ r.1 ∧ r.1 ≤ CHECKMATE - (p : Int)) ∧
      Inv r.2 ∧ SkipOK p σ r.2) ∧
    (∀ c al a0 pe σx, negamaxPre E childQ alpha beta depth p pos σ = .inr (c, al, a0, pe, σx) →
      c.p = p ∧ c.pos = pos ∧ c.skipMove = σ.skipMove p ∧ c.isRoot = decide (p = 0) ∧
      p ≤ 127 ∧ -CHECKMATE + (p : Int) ≤ al ∧ al < c.beta ∧
      c.beta ≤ CHECKMATE - (p : Int) ∧ Inv σx ∧ σx.skipMove (p + 1) = 0 ∧
      (∀ j, j ≤ p → σx.skipMove j = σ.skipMove j) ∧
      (∀ j, p < j → σ.skipMove j = 0 → σx.skipMove j = 0)) := by
  have hIc : Inv (communicate E
      { σ with nodes := σ.nodes + 1, seldepth := max σ.seldepth p }) :=
    Inv_communicate E _ hI
  have hv : ∀ b, ttLookup E (σ.skipMove p) (communicate E
      { σ with nodes := σ.nodes + 1, seldepth := max σ.seldepth p }) pos = some b →
      entryOK b := by
    intro b hb
    refine ttLookup_entryOK E _ _ pos b ?_ hb
    rw [communicate_table]
    exact hI.1
  have he0 := eval0Of_ok E (ttLookup E (σ.skipMove p) (communicate E
      { σ with nodes := σ.nodes + 1, seldepth := max σ.seldepth p }) pos) pos (hE pos) hv
  constructor
  · intro r heq
    simp only [negamaxPre] at heq
    split at heq
    next =>
      cases heq
      exact ⟨hq.1, hq.2, fun j _ => hqskip j, fun j _ hz => (hqskip j).trans hz⟩
    next hdep =>
      split at heq
      next =>
        cases heq
        refine ⟨⟨?_, ?_⟩, hI, SkipOK_refl p σ⟩ <;> (simp only [CHECKMATE]; omega)
      next hdraw =>
        split at heq
        next hg =>
          cases heq
          have h := hE pos
          refine ⟨⟨?_, ?_⟩, hI, SkipOK_refl p σ⟩ <;>
            (simp only [CHECKMATE, MATE_BOUND] at *; omega)
        next hg =>
          split at heq
          next hcl =>
            cases heq
            have hp0 : ¬p = 0 := by
              intro h0
              rw [h0] at hcl
              simp at hcl
            refine ⟨⟨?_, ?_⟩, hI, SkipOK_refl p σ⟩
            · rw [clampAlpha_pos _ _ hp0]
              exact le_max_right _ _
            · rw [clampAlpha_pos _ _ hp0]
              refine max_le hα ?_
              simp only [CHECKMATE]
              omega
          next hcl =>
            split at heq
            next s hcut =>
              cases heq
              obtain ⟨hseq, hvs⟩ := ttCutN_eq _ _ _ _ _ _ hcut
              cases hpr : ttLookup E (σ.skipMove p) (communicate E
                  { σ with nodes := σ.nodes + 1, seldepth := max σ.seldepth p }) pos with
              | none => rw [hpr] at hvs; cases hvs
              | some b =>
                rw [hpr] at hseq
                have hts := TTScore_ok b p (hv b hpr) hp
                refine ⟨⟨?_, ?_⟩, hIc, fun j _ => communicate_skip E _ j,
                  fun j _ hz => (communicate_skip E _ j).trans hz⟩ <;> rw [hseq]
                · exact hts.1
                · exact hts.2
            next hcut =>
              split at heq
              next hrfp =>
                cases heq
                have hpe : pruneEvalOf (ttLookup E (σ.skipMove p) (communicate E
                    { σ with nodes := σ.nodes + 1, seldepth := max σ.seldepth p }) pos)
                    depth p (eval0Of E (ttLookup E (σ.skipMove p) (communicate E
                    { σ with nodes := σ.nodes + 1, seldepth := max σ.seldepth p }) pos) pos) <
                    MATE_BOUND := hrfp.2.2.2.2
                refine ⟨⟨pruneEvalOf_lb _ depth p _ hv hp he0.1, ?_⟩,
                  Inv_setSkip _ _ _ (Inv_setEval _ p _ hIc he0), ?_, ?_⟩
                · simp only [CHECKMATE, MATE_BOUND] at hpe ⊢
                  omega
                · intro j hj
                  rw [SD.setSkip_skip, if_neg (by omega), SD.setEval_skip]
                  exact communicate_skip E _ j
                · intro j hj hz
                  rw [SD.setSkip_skip]
                  split
                  next => rfl
                  next =>
                    rw [SD.setEval_skip]
                    exact (communicate_skip E _ j).trans hz
              next hrfp => cases heq
  · intro c al a0 pe σx heq
    simp only [negamaxPre] at heq
    split at heq
    next => cases heq
    next hdep =>
      split at heq
      next => cases heq
      next hdraw =>
        split at heq
        next => cases heq
        next hg =>
          split at heq
          next => cases heq
          next hcl =>
            split at heq
            next s hcut => cases heq
            next hcut =>
              split at heq
              next hrfp => cases heq
              next hrfp =>
                cases heq
                refine ⟨rfl, rfl, rfl, rfl, ?_, ?_, ?_, ?_,
                  Inv_setSkip _ _ _ (Inv_setEval _ p _ hIc he0), ?_, ?_, ?_⟩
                · by_cases hp0 : p = 0
                  · omega
                  · have hd : decide (p = 0) = false := by simp [hp0]
                    rw [hd] at hg
                    simp only [MAX_DEPTH] at hg
                    simp at hg
                    omega
                · by_cases hp0 : p = 0
                  · subst hp0
                    rw [clampAlpha_zero alpha 0 rfl]
                    have h1 := (hroot rfl).1
                    omega
                  · rw [clampAlpha_pos _ _ hp0]
                    exact le_max_right _ _
                · by_cases hp0 : p = 0
                  · subst hp0
                    rw [clampAlpha_zero alpha 0 rfl, clampBeta_zero beta 0 rfl]
                    exact (hroot rfl).2.1
                  · have hd : decide (p = 0) = false := by simp [hp0]
                    rcases not_and_or.mp hcl with h1 | h1
                    · rw [hd] at h1
                      simp at h1
                    · dsimp only at h1 ⊢
                      omega
                · by_cases hp0 : p = 0
                  · subst hp0
                    dsimp only
                    rw [clampBeta_zero beta 0 rfl]
                    have h1 := (hroot rfl).2.2
                    omega
                  · dsimp only
                    rw [clampBeta_pos _ _ hp0]
                    refine le_trans (min_le_right _ _) ?_
                    omega
                · rw [SD.setSkip_skip, if_pos rfl]
                  rfl
                · intro j hj
                  rw [SD.setSkip_skip, if_neg (by omega), SD.setEval_skip]
                  exact communicate_skip E _ j
                · intro j hj hz
                  rw [SD.setSkip_skip]
                  split
                  next => rfl
                  next =>
                    rw [SD.setEval_skip]
                    exact (communicate_skip E _ j).trans hz

/-! ## Score bounds: the singular probe -/
theorem singularStep_ok (child : Int → Int → Int → Nat → Nat → SD → Int × SD)
    (c : MLCtx) (move : Nat) (σ : SD)
    (hch : ChildOK child) (hI : Inv σ) (hp : c.p ≤ 127)
    (hskip : σ.skipMove c.p = c.skipMove)
    (hroot : c.isRoot = decide (c.p = 0)) :
    (∀ r, singularStep child c move σ = .inl r →
      (c.beta ≤ r.1 ∧ r.1 ≤ CHECKMATE - (c.p : Int)) ∧ Inv r.2 ∧ SkipOK c.p σ r.2) ∧
    (∀ se, singularStep child c move σ = .inr se → Inv se.2 ∧ SkipOK c.p σ se.2) := by
  by_cases hcnd : c.depth ≥ 8 ∧ c.skipMove = 0 ∧ ¬c.isRoot = true ∧ move = TTMove c.ttValue ∧
      TTDepth c.ttValue ≥ c.depth - 3 ∧ |TTScore c.ttValue c.p| < MATE_BOUND ∧
      TTFlag c.ttValue = TT_LOWER
  · have hd8 := hcnd.1
    have hsk0 := hcnd.2.1
    have hnr := hcnd.2.2.1
    have hTB := hcnd.2.2.2.2.2.1
    have hTB' := hTB
    rw [abs_lt] at hTB'
    have hsbU : max (TTScore c.ttValue c.p - c.depth * 2) (-CHECKMATE) ≤
        CHECKMATE - (c.p : Int) := by
      have h1 : TTScore c.ttValue c.p - c.depth * 2 ≤ CHECKMATE - (c.p : Int) := by
        simp only [CHECKMATE, MATE_BOUND] at *
        omega
      have h2 : -CHECKMATE ≤ CHECKMATE - (c.p : Int) := by
        simp only [CHECKMATE]
        omega
      exact max_le h1 h2
    have hrt : c.p = 0 → -CHECKMATE ≤ max (TTScore c.ttValue c.p - c.depth * 2) (-CHECKMATE) - 1 ∧
        max (TTScore c.ttValue c.p - c.depth * 2) (-CHECKMATE) - 1 <
          max (TTScore c.ttValue c.p - c.depth * 2) (-CHECKMATE) ∧
        max (TTScore c.ttValue c.p - c.depth * 2) (-CHECKMATE) ≤ CHECKMATE := by
      intro h0
      rw [h0] at hroot
      simp only [decide_eq_true_eq] at hroot
      exact absurd (by simp [hroot]) hnr
    have hall := hch (max (TTScore c.ttValue c.p - c.depth * 2) (-CHECKMATE) - 1)
      (max (TTScore c.ttValue c.p - c.depth * 2) (-CHECKMATE)) (c.depth.tdiv 2 - 1)
      c.p c.pos (σ.setSkip c.p move) (Inv_setSkip _ _ _ hI) (by omega) (by omega) hrt
    have hI2 : Inv ((child (max (TTScore c.ttValue c.p - c.depth * 2) (-CHECKMATE) - 1)
        (max (TTScore c.ttValue c.p - c.depth * 2) (-CHECKMATE)) (c.depth.tdiv 2 - 1)
        c.p c.pos (σ.setSkip c.p move)).2.setSkip c.p NULL_MOVE) :=
      Inv_setSkip _ _ _ hall.2.2.1
    have hsk2 : SkipOK c.p σ
        ((child (max (TTScore c.ttValue c.p - c.depth * 2) (-CHECKMATE) - 1)
        (max (TTScore c.ttValue c.p - c.depth * 2) (-CHECKMATE)) (c.depth.tdiv 2 - 1)
        c.p c.pos (σ.setSkip c.p move)).2.setSkip c.p NULL_MOVE) := by
      obtain ⟨hS1, hS2⟩ := hall.2.2.2
      constructor
      · intro j hj
        rw [SD.setSkip_skip]
        split
        next hje =>
          rw [hje, hskip, hsk0]
          rfl
        next hje =>
          rw [hS1 j hj, SD.setSkip_skip, if_neg hje]
      · intro j hj hz
        rw [SD.setSkip_skip, if_neg (by omega)]
        refine hS2 j hj ?_
        rw [SD.setSkip_skip, if_neg (by omega)]
        exact hz
    constructor
    · intro r heq
      simp only [singularStep, if_pos hcnd] at heq
      split_ifs at heq <;> cases heq <;> exact ⟨⟨by omega, by omega⟩, hI2, hsk2⟩
    · intro se heq
      simp only [singularStep, if_pos hcnd] at heq
      split_ifs at heq <;> cases heq <;> exact ⟨hI2, hsk2⟩
  · constructor
    · intro r heq
      simp only [singularStep, if_neg hcnd] at heq
      cases heq
    · intro se heq
      simp only [singularStep, if_neg hcnd] at heq
      cases heq
      exact ⟨hI, SkipOK_refl c.p σ⟩

/-! ## Score bounds: the re-search ladder -/
theorem negPair_ok (child : Int → Int → Int → Nat → Nat → SD → Int × SD)
    (hch : ChildOK child) (a b d : Int) (p pos1 : Nat) (σ : SD)
    (hI : Inv σ) (hp : p + 1 ≤ 2048) (ha : a ≤ CHECKMATE - ((p + 1 : Nat) : Int))
    (hsk : σ.skipMove (p + 1) = 0) :
    (-CHECKMATE + (p : Int) + 1 ≤ (negPair child a b d (p + 1) pos1 σ).1 ∧
      (negPair child a b d (p + 1) pos1 σ).1 ≤ CHECKMATE - (p : Int) - 1) ∧
    Inv (negPair child a b d (p + 1) pos1 σ).2 ∧
    SkipOK (p + 1) σ (negPair child a b d (p + 1) pos1 σ).2 := by
  have h := hch a b d (p + 1) pos1 σ hI hp ha (by omega)
  have h1 := h.1
  have h2 := h.2.1 hsk
  simp only [negPair]
  refine ⟨⟨?_, ?_⟩, h.2.2.1, h.2.2.2⟩
  · push_cast at h1 ⊢
    omega
  · push_cast at h2 ⊢
    omega

theorem ladderTail_ok (E : Env) (child : Int → Int → Int → Nat → Nat → SD → Int × SD)
    (c : MLCtx) (nm1 : Nat) (alpha : Int) (pos1 : Nat) (σ3 : SD) (newDepth R : Int)
    (hch : ChildOK child) (hI : Inv σ3) (hp : c.p ≤ 127)
    (hsk1 : σ3.skipMove (c.p + 1) = 0)
    (hαlo : -CHECKMATE + (c.p : Int) ≤ alpha) (hαβ : alpha < c.beta)
    (hβhi : c.beta ≤ CHECKMATE - (c.p : Int)) :
    (-CHECKMATE + (c.p : Int) + 1 ≤ (ladderTail E child c nm1 alpha pos1 σ3 newDepth R).1 ∧
      (ladderTail E child c nm1 alpha pos1 σ3 newDepth R).1 ≤ CHECKMATE - (c.p : Int)) ∧
    Inv (ladderTail E child c nm1 alpha pos1 σ3 newDepth R).2 ∧
    SkipOK (c.p + 1) σ3 (ladderTail E child c nm1 alpha pos1 σ3 newDepth R).2 := by
  have ha1 : -alpha - 1 ≤ CHECKMATE - ((c.p + 1 : Nat) : Int) := by push_cast; omega
  have ha3 : -c.beta ≤ CHECKMATE - ((c.p + 1 : Nat) : Int) := by push_cast; omega
  rcases eq_or_ne R 1 with hR | hR
  · simp only [ladderTail]
    rw [if_neg (show ¬R ≠ 1 from fun h => h hR)]
    dsimp only
    split
    next =>
      have hnp2 := negPair_ok child hch (-alpha - 1) (-alpha) (newDepth - 1) c.p pos1 σ3
        hI (by omega) ha1 hsk1
      split
      next =>
        have hnp3 := negPair_ok child hch (-c.beta) (-alpha) (newDepth - 1) c.p pos1
          (negPair child (-alpha - 1) (-alpha) (newDepth - 1) (c.p + 1) pos1 σ3).2
          hnp2.2.1 (by omega) ha3
          ((hnp2.2.2.1 (c.p + 1) le_rfl).trans hsk1)
        have hb1 := hnp3.1.1
        have hb2 := hnp3.1.2
        exact ⟨⟨by omega, by omega⟩, hnp3.2.1,
          SkipOK_trans _ _ _ _ hnp2.2.2 hnp3.2.2⟩
      next =>
        have hb1 := hnp2.1.1
        have hb2 := hnp2.1.2
        exact ⟨⟨by omega, by omega⟩, hnp2.2.1, hnp2.2.2⟩
    next =>
      split
      next =>
        dsimp only
        have hnp3 := negPair_ok child hch (-c.beta) (-alpha) (newDepth - 1) c.p pos1 σ3
          hI (by omega) ha3 hsk1
        have hb1 := hnp3.1.1
        have hb2 := hnp3.1.2
        exact ⟨⟨by omega, by omega⟩, hnp3.2.1, hnp3.2.2⟩
      next =>
        exact ⟨⟨by omega, by omega⟩, hI, SkipOK_refl _ _⟩
  · simp only [ladderTail]
    rw [if_pos hR]
    have hnp1 := negPair_ok child hch (-alpha - 1) (-alpha) (newDepth - R) c.p pos1 σ3
      hI (by omega) ha1 hsk1
    split
    next =>
      have hnp2 := negPair_ok child hch (-alpha - 1) (-alpha) (newDepth - 1) c.p pos1
        (negPair child (-alpha - 1) (-alpha) (newDepth - R) (c.p + 1) pos1 σ3).2
        hnp1.2.1 (by omega) ha1
        ((hnp1.2.2.1 (c.p + 1) le_rfl).trans hsk1)
      split
      next =>
        have hnp3 := negPair_ok child hch (-c.beta) (-alpha) (newDepth - 1) c.p pos1
          (negPair child (-alpha - 1) (-alpha) (newDepth - 1) (c.p + 1) pos1
            (negPair child (-alpha - 1) (-alpha) (newDepth - R) (c.p + 1) pos1 σ3).2).2
          hnp2.2.1 (by omega) ha3
          ((hnp2.2.2.1 (c.p + 1) le_rfl).trans
            ((hnp1.2.2.1 (c.p + 1) le_rfl).trans hsk1))
        have hb1 := hnp3.1.1
        have hb2 := hnp3.1.2
        exact ⟨⟨by omega, by omega⟩, hnp3.2.1,
          SkipOK_trans _ _ _ _ (SkipOK_trans _ _ _ _ hnp1.2.2 hnp2.2.2) hnp3.2.2⟩
      next =>
        have hb1 := hnp2.1.1
        have hb2 := hnp2.1.2
        exact ⟨⟨by omega, by omega⟩, hnp2.2.1,
          SkipOK_trans _ _ _ _ hnp1.2.2 hnp2.2.2⟩
    next =>
      split
      next =>
        have hnp3 := negPair_ok child hch (-c.beta) (-alpha) (newDepth - 1) c.p pos1
          (negPair child (-alpha - 1) (-alpha) (newDepth - R) (c.p + 1) pos1 σ3).2
          hnp1.2.1 (by omega) ha3
          ((hnp1.2.2.1 (c.p + 1) le_rfl).trans hsk1)
        have hb1 := hnp3.1.1
        have hb2 := hnp3.1.2
        exact ⟨⟨by omega, by omega⟩, hnp3.2.1,
          SkipOK_trans _ _ _ _ hnp1.2.2 hnp3.2.2⟩
      next =>
        have hb1 := hnp1.1.1
        have hb2 := hnp1.1.2
        exact ⟨⟨by omega, by omega⟩, hnp1.2.1, hnp1.2.2⟩

theorem searchLadder_ok (E : Env) (child : Int → Int → Int → Nat → Nat → SD → Int × SD)
    (c : MLCtx) (se tactical : Bool) (mscore : Int) (nm1 : Nat) (alpha : Int)
    (pos1 : Nat) (σ3 : SD)
    (hch : ChildOK child) (hI : Inv σ3) (hp : c.p ≤ 127)
    (hsk1 : σ3.skipMove (c.p + 1) = 0)
    (hαlo : -CHECKMATE + (c.p : Int) ≤ alpha) (hαβ : alpha < c.beta)
    (hβhi : c.beta ≤ CHECKMATE - (c.p : Int)) :
    (-CHECKMATE + (c.p : Int) + 1 ≤
        (searchLadder E child c se tactical mscore nm1 alpha pos1 σ3).1 ∧
      (searchLadder E child c se tactical mscore nm1 alpha pos1 σ3).1 ≤
        CHECKMATE - (c.p : Int)) ∧
    Inv (searchLadder E child c se tactical mscore nm1 alpha pos1 σ3).2 ∧
    SkipOK (c.p + 1) σ3 (searchLadder E child c se tactical mscore nm1 alpha pos1 σ3).2 := by
  simp only [searchLadder]
  exact ladderTail_ok E child c nm1 alpha pos1 σ3 _ _ hch hI hp hsk1 hαlo hαβ hβhi

/-! ## Score bounds: the negamax move loop -/
theorem SkipOK_setMove (p : Nat) (σ : SD) (q m : Nat) :
    SkipOK p σ (σ.setMove q m) :=
  ⟨fun _ _ => rfl, fun _ _ h => h⟩

theorem mloop_ok (E : Env) (child : Int → Int → Int → Nat → Nat → SD → Int × SD)
    (c : MLCtx) (hch : ChildOK child) (hroot : c.isRoot = decide (c.p = 0))
    (hp : c.p ≤ 127) (hβhi : c.beta ≤ CHECKMATE - (c.p : Int)) :
    ∀ n ms alpha bs bm nm σ out, moveLoopAux E child c n ms alpha bs bm nm σ = out →
      n = ms.length → (∀ x ∈ ms, x.1 ≠ 0) →
      Inv σ → σ.skipMove c.p = c.skipMove → σ.skipMove (c.p + 1) = 0 →
      -CHECKMATE + (c.p : Int) ≤ alpha → alpha < c.beta →
      bs ≤ CHECKMATE - (c.p : Int) →
      (c.skipMove = 0 → -CHECKMATE + (c.p : Int) ≤ bs ∨ ms ≠ []) →
      (∀ s σ', out = .ret s σ' →
        (-CHECKMATE + (c.p : Int) ≤ s ∧ s ≤ CHECKMATE - (c.p : Int)) ∧
        Inv σ' ∧ SkipOK c.p σ σ') ∧
      (∀ bs' bm' σ', out = .done bs' bm' σ' →
        bs' ≤ CHECKMATE - (c.p : Int) ∧
        (c.skipMove = 0 → -CHECKMATE + (c.p : Int) ≤ bs') ∧
        Inv σ' ∧ SkipOK c.p σ σ') := by
  intro n
  induction n with
  | zero =>
    intro ms alpha bs bm nm σ out heq hn hms hI hsk hsk1 hαlo hαβ hbs hpre
    have hnil : ms = [] := by
      cases ms with
      | nil => rfl
      | cons a l => simp at hn
    subst hnil
    constructor
    · intro s σ' h'
      cases heq.trans h'
    · intro bs' bm' σ' h'
      cases heq.trans h'
      refine ⟨hbs, ?_, hI, SkipOK_refl _ _⟩
      intro h0
      rcases hpre h0 with h | h
      · exact h
      · exact absurd rfl h
  | succ n ih =>
    intro ms alpha bs bm nm σ out heq hn hms hI hsk hsk1 hαlo hαβ hbs hpre
    cases ms with
    | nil => simp at hn
    | cons m rest =>
      have hn' : n = (selectTop m rest).2.length := by
        rw [selectTop_length]
        simp only [List.length_cons] at hn
        omega
      have hms' : ∀ x ∈ (selectTop m rest).2, x.1 ≠ 0 :=
        fun x hx => hms x (selectTop_snd_mem m rest x hx)
      have hmv : (selectTop m rest).1.1 ≠ 0 := hms _ (selectTop_fst_mem m rest)
      simp only [moveLoopAux] at heq
      split at heq
      next hskp =>
        exact ih _ _ _ _ _ _ _ heq hn' hms' hI hsk hsk1 hαlo hαβ hbs
          (fun h0 => absurd hskp (by rw [h0]; exact hmv))
      next hskp =>
        split at heq
        next hlmp =>
          refine ih _ _ _ _ _ _ _ heq hn' hms' hI hsk hsk1 hαlo hαβ hbs ?_
          intro h0
          left
          have := hlmp.2.1
          simp only [CHECKMATE, MATE_BOUND] at *
          omega
        next hlmp =>
          split at heq
          next hsee =>
            refine ih _ _ _ _ _ _ _ heq hn' hms' hI hsk hsk1 hαlo hαβ hbs ?_
            intro h0
            left
            have := hsee.2.1
            simp only [CHECKMATE, MATE_BOUND] at *
            omega
          next hsee =>
            have hS := singularStep_ok child c (selectTop m rest).1.1 σ hch hI hp hsk hroot
            split at heq
            next ret1 heqm =>
              have hSi := hS.1 ret1 heqm
              constructor
              · intro s σ' h'
                cases heq.trans h'
                refine ⟨⟨?_, hSi.1.2⟩, hSi.2.1, hSi.2.2⟩
                have := hSi.1.1
                omega
              · intro bs' bm' σ' h'
                cases heq.trans h'
            next se heqm =>
              have hSe := hS.2 se heqm
              have hsk3 : (se.2.setMove c.p (selectTop m rest).1.1).skipMove (c.p + 1) = 0 := by
                rw [SD.setMove_skip]
                exact hSe.2.2 (c.p + 1) (by omega) hsk1
              have hLad := searchLadder_ok E child c se.1
                (decide (E.movePromo (selectTop m rest).1.1 ≠ 0) ||
                  E.moveCapture (selectTop m rest).1.1)
                (selectTop m rest).1.2 (nm + 1) alpha
                (E.makeMove (selectTop m rest).1.1 c.pos)
                (se.2.setMove c.p (selectTop m rest).1.1)
                hch (Inv_setMove _ _ _ hSe.1) hp hsk3 hαlo hαβ hβhi
              have hσ4 : SkipOK c.p σ (searchLadder E child c se.1
                  (decide (E.movePromo (selectTop m rest).1.1 ≠ 0) ||
                    E.moveCapture (selectTop m rest).1.1)
                  (selectTop m rest).1.2 (nm + 1) alpha
                  (E.makeMove (selectTop m rest).1.1 c.pos)
                  (se.2.setMove c.p (selectTop m rest).1.1)).2 :=
                SkipOK_trans _ _ _ _ hSe.2
                  (SkipOK_trans _ _ _ _ (SkipOK_setMove _ _ _ _) (SkipOK_mono _ _ _ hLad.2.2))
              have hσ4sk : (searchLadder E child c se.1
                  (decide (E.movePromo (selectTop m rest).1.1 ≠ 0) ||
                    E.moveCapture (selectTop m rest).1.1)
                  (selectTop m rest).1.2 (nm + 1) alpha
                  (E.makeMove (selectTop m rest).1.1 c.pos)
                  (se.2.setMove c.p (selectTop m rest).1.1)).2.skipMove c.p = c.skipMove :=
                (hσ4.1 c.p le_rfl).trans hsk
              have hσ4sk1 : (searchLadder E child c se.1
                  (decide (E.movePromo (selectTop m rest).1.1 ≠ 0) ||
                    E.moveCapture (selectTop m rest).1.1)
                  (selectTop m rest).1.2 (nm + 1) alpha
                  (E.makeMove (selectTop m rest).1.1 c.pos)
                  (se.2.setMove c.p (selectTop m rest).1.1)).2.skipMove (c.p + 1) = 0 :=
                (hLad.2.2.1 (c.p + 1) le_rfl).trans hsk3
              have hb1 := hLad.1.1
              have hb2 := hLad.1.2
              split at heq
              next =>
                constructor
                · intro s σ' h'
                  cases heq.trans h'
                  exact ⟨⟨by omega, by omega⟩, hLad.2.1, hσ4⟩
                · intro bs' bm' σ' h'
                  cases heq.trans h'
              next =>
                split at heq
                next hgt =>
                  split at heq
                  next hsa =>
                    split at heq
                    next hab =>
                      constructor
                      · intro s σ' h'
                        cases heq.trans h'
                      · intro bs' bm' σ' h'
                        cases heq.trans h'
                        exact ⟨by omega, fun _ => by omega, hLad.2.1, hσ4⟩
                    next hab =>
                      have hrec := ih _ _ _ _ _ _ _ heq hn' hms' hLad.2.1 hσ4sk hσ4sk1
                        (by omega) (by omega) (by omega) (fun _ => Or.inl (by omega))
                      constructor
                      · intro s σ' h'
                        obtain ⟨hb, hi, hs⟩ := hrec.1 s σ' h'
                        exact ⟨hb, hi, SkipOK_trans _ _ _ _ hσ4 hs⟩
                      · intro bs' bm' σ' h'
                        obtain ⟨hu, hl, hi, hs⟩ := hrec.2 bs' bm' σ' h'
                        exact ⟨hu, hl, hi, SkipOK_trans _ _ _ _ hσ4 hs⟩
                  next hsa =>
                    split at heq
                    next hab =>
                      constructor
                      · intro s σ' h'
                        cases heq.trans h'
                      · intro bs' bm' σ' h'
                        cases heq.trans h'
                        exact ⟨by omega, fun _ => by omega, hLad.2.1, hσ4⟩
                    next hab =>
                      have hrec := ih _ _ _ _ _ _ _ heq hn' hms' hLad.2.1 hσ4sk hσ4sk1
                        (by omega) (by omega) (by omega) (fun _ => Or.inl (by omega))
                      constructor
                      · intro s σ' h'
                        obtain ⟨hb, hi, hs⟩ := hrec.1 s σ' h'
                        exact ⟨hb, hi, SkipOK_trans _ _ _ _ hσ4 hs⟩
                      · intro bs' bm' σ' h'
                        obtain ⟨hu, hl, hi, hs⟩ := hrec.2 bs' bm' σ' h'
                        exact ⟨hu, hl, hi, SkipOK_trans _ _ _ _ hσ4 hs⟩
                next hgt =>
                  have hrec := ih _ _ _ _ _ _ _ heq hn' hms' hLad.2.1 hσ4sk hσ4sk1
                    hαlo hαβ hbs (fun _ => Or.inl (by omega))
                  constructor
                  · intro s σ' h'
                    obtain ⟨hb, hi, hs⟩ := hrec.1 s σ' h'
                    exact ⟨hb, hi, SkipOK_trans _ _ _ _ hσ4 hs⟩
                  · intro bs' bm' σ' h'
                    obtain ⟨hu, hl, hi, hs⟩ := hrec.2 bs' bm' σ' h'
                    exact ⟨hu, hl, hi, SkipOK_trans _ _ _ _ hσ4 hs⟩

theorem negamaxCore_ok (E : Env) (child : Int → Int → Int → Nat → Nat → SD → Int × SD)
    (c : MLCtx) (alpha a0 : Int) (σ : SD)
    (hch : ChildOK child) (hNZ : ∀ ps x, x ∈ E.generateMoves ps → x.1 ≠ 0)
    (hroot : c.isRoot = decide (c.p = 0)) (hp : c.p ≤ 127)
    (hβhi : c.beta ≤ CHECKMATE - (c.p : Int))
    (hI : Inv σ) (hsk : σ.skipMove c.p = c.skipMove) (hsk1 : σ.skipMove (c.p + 1) = 0)
    (hαlo : -CHECKMATE + (c.p : Int) ≤ alpha) (hαβ : alpha < c.beta) :
    (negamaxCore E child c alpha a0 σ).1 ≤ CHECKMATE - (c.p : Int) ∧
    (c.skipMove = 0 → -CHECKMATE + (c.p : Int) ≤ (negamaxCore E child c alpha a0 σ).1) ∧
    Inv (negamaxCore E child c alpha a0 σ).2 ∧
    SkipOK c.p σ (negamaxCore E child c alpha a0 σ).2 := by
  by_cases hnil : E.generateMoves c.pos = []
  · simp only [negamaxCore, hnil, List.length_nil, moveLoopAux]
    split
    next =>
      split
      next =>
        refine ⟨?_, fun _ => ?_, hI, SkipOK_refl _ _⟩ <;> (simp only [CHECKMATE]; omega)
      next =>
        refine ⟨?_, fun _ => ?_, hI, SkipOK_refl _ _⟩ <;> (simp only [CHECKMATE]; omega)
    next h => exact absurd trivial h
  · cases hout : moveLoopAux E child c (E.generateMoves c.pos).length
        (E.generateMoves c.pos) alpha (-CHECKMATE) 0 0 σ with
    | ret s σ' =>
      have hml := mloop_ok E child c hch hroot hp hβhi
        (E.generateMoves c.pos).length (E.generateMoves c.pos) alpha (-CHECKMATE) 0 0 σ
        _ hout rfl (fun x hx => hNZ c.pos x hx) hI hsk hsk1 hαlo hαβ
        (by simp only [CHECKMATE]; omega) (fun _ => Or.inr hnil)
      obtain ⟨⟨hlo, hhi⟩, hi, hs⟩ := hml.1 s σ' rfl
      simp only [negamaxCore, hout]
      exact ⟨hhi, fun _ => hlo, hi, hs⟩
    | done bs' bm' σ' =>
      have hml := mloop_ok E child c hch hroot hp hβhi
        (E.generateMoves c.pos).length (E.generateMoves c.pos) alpha (-CHECKMATE) 0 0 σ
        _ hout rfl (fun x hx => hNZ c.pos x hx) hI hsk hsk1 hαlo hαβ
        (by simp only [CHECKMATE]; omega) (fun _ => Or.inr hnil)
      obtain ⟨hu, hl, hi, hs⟩ := hml.2 bs' bm' σ' rfl
      simp only [negamaxCore, hout]
      rw [if_neg hnil]
      split
      next hz =>
        refine ⟨hu, fun _ => hl hz, ⟨?_, hi.2⟩, hs⟩
        exact tableOK_ttPutT E σ'.table (E.zobrist c.pos) c.depth bs'
          (flagOf bs' c.beta a0) bm' c.p (σ'.evals c.p) hi.1
          (by have := hl hz; omega) (by omega) (hi.2 c.p).1 (hi.2 c.p).2
      next hz =>
        exact ⟨hu, fun h0 => absurd h0 hz, hi, hs⟩

/-! ## Score bounds: the full negamax frame -/
theorem negamax_ok (E : Env)
    (hE : ∀ q, -MATE_BOUND ≤ E.evaluate q ∧ E.evaluate q ≤ MATE_BOUND)
    (hNZ : ∀ ps x, x ∈ E.generateMoves ps → x.1 ≠ 0) :
    ∀ fuel, ChildOK (fun a b d q ps σ' => negamax E a b d q ps σ' fuel) := by
  intro fuel
  induction fuel with
  | zero =>
    intro a b d q ps σ' hI hq ha hroot
    dsimp only
    refine ⟨?_, fun _ => ?_, hI, SkipOK_refl _ _⟩ <;>
      (simp only [negamax, CHECKMATE]; omega)
  | succ fuel ih =>
    intro a b d q ps σ' hI hq ha hroot
    dsimp only
    rw [negamax_succ]
    simp only [negamaxStep]
    have hqb := quiesce_bounds E hE fuel a b q ps σ' hI hq
    have hpre := negamaxPre_ok E (fun a2 b2 q2 ps2 σ2 => quiesce E a2 b2 q2 ps2 σ2 fuel)
      a b d q ps σ' hE ⟨hqb.1, hqb.2⟩ (fun j => quiesce_skip E fuel a b q ps σ' j)
      hI hq ha hroot
    cases hpre2 : negamaxPre E (fun a2 b2 q2 ps2 σ2 => quiesce E a2 b2 q2 ps2 σ2 fuel)
        a b d q ps σ' with
    | inl r =>
      obtain ⟨⟨hlo, hhi⟩, hi, hs⟩ := hpre.1 r hpre2
      simp only [hpre2]
      exact ⟨hhi, fun _ => hlo, hi, hs⟩
    | inr tup =>
      obtain ⟨c, al, a0, pe, σx⟩ := tup
      obtain ⟨hcp, hcpos, hcsk, hcroot, hp127, hallo, halβ, hβhi, hIx, hskx1,
        hskxle, hskxgt⟩ := hpre.2 c al a0 pe σx hpre2
      subst hcp
      subst hcpos
      simp only [hpre2]
      have hσx : SkipOK c.p σ' σx := ⟨hskxle, hskxgt⟩
      have hcore : ∀ σc, Inv σc → σc.skipMove c.p = c.skipMove →
          σc.skipMove (c.p + 1) = 0 → SkipOK c.p σ' σc →
          (negamaxCore E (fun a2 b2 d2 q2 ps2 σ2 => negamax E a2 b2 d2 q2 ps2 σ2 fuel)
              c al a0 σc).1 ≤ CHECKMATE - (c.p : Int) ∧
          (σ'.skipMove c.p = 0 →
            -CHECKMATE + (c.p : Int) ≤ (negamaxCore E
              (fun a2 b2 d2 q2 ps2 σ2 => negamax E a2 b2 d2 q2 ps2 σ2 fuel) c al a0 σc).1) ∧
          Inv (negamaxCore E (fun a2 b2 d2 q2 ps2 σ2 => negamax E a2 b2 d2 q2 ps2 σ2 fuel)
            c al a0 σc).2 ∧
          SkipOK c.p σ' (negamaxCore E
            (fun a2 b2 d2 q2 ps2 σ2 => negamax E a2 b2 d2 q2 ps2 σ2 fuel) c al a0 σc).2 := by
        intro σc hIc hskc hskc1 hsc
        have hco := negamaxCore_ok E _ c al a0 σc ih hNZ hcroot hp127 hβhi hIc
          hskc hskc1 hallo halβ
        refine ⟨hco.1, ?_, hco.2.2.1, SkipOK_trans _ _ _ _ hsc hco.2.2.2⟩
        intro hz
        refine hco.2.1 ?_
        rw [hcsk, hz]
      split
      next hnm =>
        have hnull := ih (-c.beta) (-c.beta + 1)
          (c.depth - nullReduction c.depth pe c.beta) (c.p + 1) (E.nullMove c.pos)
          (σx.setMove c.p NULL_MOVE) (Inv_setMove _ _ _ hIx) (by omega)
          (by push_cast; omega) (by omega)
        have hnsk1 : (negamax E (-c.beta) (-c.beta + 1)
            (c.depth - nullReduction c.depth pe c.beta) (c.p + 1) (E.nullMove c.pos)
            (σx.setMove c.p NULL_MOVE) fuel).2.skipMove (c.p + 1) = 0 :=
          (hnull.2.2.2.1 (c.p + 1) le_rfl).trans hskx1
        have hnskp : (negamax E (-c.beta) (-c.beta + 1)
            (c.depth - nullReduction c.depth pe c.beta) (c.p + 1) (E.nullMove c.pos)
            (σx.setMove c.p NULL_MOVE) fuel).2.skipMove c.p = c.skipMove :=
          ((hnull.2.2.2.1 c.p (by omega)).trans (hskxle c.p le_rfl)).trans hcsk.symm
        have hnσ : SkipOK c.p σ' (negamax E (-c.beta) (-c.beta + 1)
            (c.depth - nullReduction c.depth pe c.beta) (c.p + 1) (E.nullMove c.pos)
            (σx.setMove c.p NULL_MOVE) fuel).2 :=
          SkipOK_trans _ _ _ _ hσx
            (SkipOK_trans _ _ _ _ (SkipOK_setMove _ _ _ _) (SkipOK_mono _ _ _ hnull.2.2.2))
        split
        next =>
          refine ⟨by simp only [CHECKMATE]; omega, fun _ => by simp only [CHECKMATE]; omega,
            hnull.2.2.1, hnσ⟩
        next =>
          split
          next =>
            refine ⟨hβhi, fun _ => by omega, hnull.2.2.1, hnσ⟩
          next =>
            exact hcore _ hnull.2.2.1 hnskp hnsk1 hnσ
      next =>
        exact hcore σx hIx ((hskxle c.p le_rfl).trans hcsk.symm) hskx1 hσx

/-- C3 counterexample: (a) a quiescence frame whose stop flag is raised
returns 0 after the first child, strictly below its stand-pat value 7;
(b) a negamax frame inside a singular verification (skipMove = 7 at ply 1)
whose only generated move is the excluded one returns −CHECKMATE, strictly
below −CHECKMATE + ply. -/
theorem C3_counterexample :
    ((initSD true).stopped = true ∧
      (quiesce E3 0 100 1 0 (initSD true) 5).1 = 0 ∧
      qStandPat E3 (ttProbeT E3 (initSD true) 0) 0 1 = 7) ∧
    (σskip.skipMove 1 = 7 ∧ Ew.generateMoves 0 = [(7, 0)] ∧
      (negamax Ew (-100) 100 2 1 0 σskip 10).1 = -CHECKMATE) :=
  ⟨⟨rfl, by decide, by decide⟩, ⟨rfl, rfl, by decide⟩⟩

/-- C3 corrected: when the stop signal never fires and the frame is not
already stopped, a quiescence frame that reaches its stand-pat computation
(no immediate draw, within the ply limit, no TT cutoff) returns at least
its stand-pat value; and a negamax frame with no singular exclusion pending
at its ply, a bounded static evaluator, non-null generated moves, an
in-bounds table and a sane window returns at least −CHECKMATE + ply.  The
stopped-quiesce and singular-exclusion counterexamples show both side
conditions are necessary. -/
theorem C3_score_lower_bounds (E : Env) (fuel : Nat) (alpha beta depth : Int)
    (p pos : Nat) (σ : SD)
    (hE : ∀ q, -MATE_BOUND ≤ E.evaluate q ∧ E.evaluate q ≤ MATE_BOUND)
    (hNZ : ∀ ps x, x ∈ E.generateMoves ps → x.1 ≠ 0)
    (hI : Inv σ) (hp : p ≤ 2048)
    (hsig : ∀ n, E.stopSignal n = false) (hstop : σ.stopped = false)
    (hdraw : ¬(E.isMaterialDraw pos = true ∨ E.isRepetition pos = true ∨
      E.halfMove pos > 99))
    (hguard : ¬p > MAX_DEPTH - 1)
    (hcut : ttCutQ (ttProbeT E σ pos) alpha beta p = none)
    (hskip : σ.skipMove p = 0)
    (hα : alpha ≤ CHECKMATE - (p : Int))
    (hroot : p = 0 → -CHECKMATE ≤ alpha ∧ alpha < beta ∧ beta ≤ CHECKMATE) :
    qStandPat E (ttProbeT E σ pos) pos p ≤ (quiesce E alpha beta p pos σ (fuel + 1)).1 ∧
    -CHECKMATE + (p : Int) ≤ (negamax E alpha beta depth p pos σ fuel).1 := by
  constructor
  · have hpr : ttProbeT E (communicate E
        { σ with nodes := σ.nodes + 1, seldepth := max σ.seldepth p }) pos =
        ttProbeT E σ pos := ttProbeT_communicate E _ pos
    have hstop2 : ((communicate E
        { σ with nodes := σ.nodes + 1, seldepth := max σ.seldepth p }).setEval p
        (eval0Of E (ttProbeT E (communicate E
          { σ with nodes := σ.nodes + 1, seldepth := max σ.seldepth p }) pos) pos)).stopped =
        false := (communicate_stopped_const E _ hsig).trans hstop
    rw [quiesce_succ]
    simp only [quiesceStep]
    split
    next hd => exact absurd hd hdraw
    next =>
      split
      next s hs =>
        rw [hpr, hcut] at hs
        cases hs
      next hs =>
        split
        next hb =>
          rw [hpr]
        next hb =>
          rw [hpr]
          rw [hpr] at hstop2
          exact qLoop_ge E _ beta p pos _
            (fun a b ps σ'' => quiesce_stopped_const E hsig fuel a b (p + 1) ps σ'')
            _ _ _ _ _ hstop2
  · exact (negamax_ok E hE hNZ fuel alpha beta depth p pos σ hI hp hα hroot).2.1 hskip

theorem C3_score_lower_bounds_witness :
    qStandPat Ew (ttProbeT Ew (initSD false) 0) 0 1 ≤
      (quiesce Ew 0 100 1 0 (initSD false) 4).1 ∧
    -CHECKMATE + ((1 : Nat) : Int) ≤ (negamax Ew 0 100 2 1 0 (initSD false) 3).1 := by
  have hIinit : Inv (initSD false) := by
    constructor
    · intro i sl hm b hb
      have hsl : sl = (0, none) := List.eq_of_mem_replicate hm
      rw [hsl] at hb
      cases hb
    · intro q
      exact ⟨(by decide : -MATE_BOUND ≤ (0 : Int)), (by decide : (0 : Int) ≤ MATE_BOUND)⟩
  exact C3_score_lower_bounds Ew 3 0 100 2 1 0 (initSD false)
    (fun q => ⟨(by decide : -MATE_BOUND ≤ (7 : Int)), (by decide : (7 : Int) ≤ MATE_BOUND)⟩)
    (fun ps x hx => by
      have hx7 : x = (7, 0) := List.mem_singleton.mp hx
      rw [hx7]; decide)
    hIinit (by decide) (fun n => rfl) rfl (by decide) (by decide) (by decide) rfl
    (by decide) (fun h => absurd h (by decide))

end Berserk
